import Mathlib

/-!
Verification development for the object-file emission core of an assembler
(`src/asm/output.c`).  The C code is shallowly embedded: machine integers are
`Nat` with explicit `% 2^w` where overflow or truncation matters, pointers to
arena-allocated provenance nodes are arena indices, mutable global state is
threaded explicitly, and `fatalerror` / failed `assert` (which terminate the
process) are modelled with `Except.error`.
-/

/-- 32-bit all-ones value: the C `(uint32_t)-1` sentinel for "unassigned". -/
def UINT32_MAX : Nat := 2 ^ 32 - 1

/-- Truncation performed by storing a value into a `uint8_t` (e.g. via `fputc`
or the `writebyte` macro of `writerpn`). -/
def wbyte (b : Nat) : Nat := b % 256

/-- Little-endian 4-byte encoding of a 32-bit value; this is `fputlong` of the
source (four `fputc` of `i`, `i >> 8`, `i >> 16`, `i >> 24`), and also the byte
sequence produced by the explicit `value & 0xFF`, `value >> 8`, ... writes in
`writerpn` and `allocpatch`. -/
def fputlong (i : Nat) : List Nat :=
  [i % 256, i / 2 ^ 8 % 256, i / 2 ^ 16 % 256, i / 2 ^ 24 % 256]

/-- `fputstring`: the bytes of a NUL-terminated string (the name bytes, none of
which is 0, followed by the terminating 0). -/
def fputstring (s : List Nat) : List Nat := s ++ [0]

/-- Conversion of a C `int32_t` value to `uint32_t`, as in the
`(uint32_t)(expr->nVal)` casts of `allocpatch`. -/
def toU32 (n : Int) : Nat := (n % (2 ^ 32 : Int)).toNat

/-!
## Provenance graph registry (`FileStackNode`)

The `struct FileStackNode` values live in an arena: a node is an index into a
fixed list of `FNodeData`; the `parent` pointer is an optional index.  The
node kind tags (`NODE_REPT`, `NODE_FILE`, `NODE_MACRO`) and the node payloads
are declared in `asm/fstack.h`, which is not part of the given source; they are
modelled from the spec: a FILE/MACRO node carries a name string and its kind
tag byte, a REPEAT node carries the per-depth iteration counters (the header
stores their number separately as `reptDepth`; it always equals the length of
the `iters` array, so the embedding stores only the list).
-/

/-- Kind-specific payload of a provenance node.  `named` covers `NODE_FILE`
and `NODE_MACRO` (which differ only in the `kindTag` byte written to the
file); `rept` is `NODE_REPT`. -/
inductive FNodeContent where
  | named (kindTag : Nat) (name : List Nat)
  | rept (iters : List Nat)
deriving Repr, DecidableEq

/-- One provenance node of the arena: `struct FileStackNode` minus its
mutable `ID`/`next` fields, which live in `RegState`. -/
structure FNodeData where
  parent : Option Nat
  lineNo : Nat
  content : FNodeContent
deriving Repr, DecidableEq

/-- Placeholder node returned when an arena index is read out of range
(dereferencing a dangling pointer would be undefined behavior in the C). -/
def dNode : FNodeData := ⟨none, 0, .rept []⟩

/-- The mutable state of the registry: `ids` is the per-arena-slot `ID` field
(`none` = the C `-1` sentinel), `flat` is the `fileStackNodes` singly linked
list of registered nodes, head first (the list is built by prepending). -/
structure RegState where
  ids : List (Option Nat)
  flat : List Nat
deriving Repr, DecidableEq

/-- Reading `node->ID` for arena index `i`. -/
def RegState.idOf (st : RegState) (i : Nat) : Option Nat := st.ids.getD i none

/-- Initial registry: no node registered, every `ID` is the sentinel. -/
def initRegState (arena : List FNodeData) : RegState :=
  ⟨List.replicate arena.length none, []⟩

/-- `getNbFileStackNodes`: `fileStackNodes ? fileStackNodes->ID + 1 : 0`.
The head of `flat` is always registered, so its `ID` is never `none`; the
`getD 0` default is only there to make the read total. -/
def getNbFileStackNodes (st : RegState) : Nat :=
  match st.flat with
  | [] => 0
  | n :: _ => (st.idOf n).getD 0 + 1

/-- The loop body of `out_RegisterNode`, with fuel bounding the walk up the
parent chain (parents of a well-formed arena have strictly smaller indices, so
fuel `i + 1` is never exhausted; see `WFArena`).  Each iteration: if the node
already has an ID, stop; otherwise assign it `getNbFileStackNodes`, fail
fatally if that is the `-1` sentinel, prepend the node to `fileStackNodes`,
and continue with the parent if there is one. -/
def registerNodeAux (arena : List FNodeData) :
    Nat → Nat → RegState → Except String RegState
  | 0, _, st => .ok st
  | fuel + 1, i, st =>
    match st.idOf i with
    | some _ => .ok st
    | none =>
      let newID := getNbFileStackNodes st
      if newID = UINT32_MAX then
        .error "Reached too many file stack nodes; try splitting the file up"
      else
        let st' : RegState := ⟨st.ids.set i (some newID), i :: st.flat⟩
        match (arena.getD i dNode).parent with
        | none => .ok st'
        | some p => registerNodeAux arena fuel p st'

/-- `out_RegisterNode`: register a node (and its unregistered ancestors),
giving each a unique ID. -/
def out_RegisterNode (arena : List FNodeData) (i : Nat) (st : RegState) :
    Except String RegState :=
  registerNodeAux arena (i + 1) i st

/-- Well-formed arena: every parent pointer refers to an earlier slot.  This
holds of the front-end's allocation order (a node's parent exists before it)
and makes the parent walk of `out_RegisterNode` terminate. -/
def WFArena (arena : List FNodeData) : Prop :=
  ∀ i, i < arena.length → ∀ p, (arena.getD i dNode).parent = some p → p < i

/-- Running a sequence of `out_RegisterNode` calls. -/
def runRegs (arena : List FNodeData) : List Nat → RegState → Except String RegState
  | [], st => .ok st
  | i :: rest, st =>
    match out_RegisterNode arena i st with
    | .error e => .error e
    | .ok st' => runRegs arena rest st'

/-- The IDs of the flat list, head (most recently registered) first, reading
each node's stored `ID` field. -/
def flatIDs (st : RegState) : List Nat :=
  st.flat.map (fun i => (st.idOf i).getD 0)

/-- Structural invariant of the registry (proved preserved by registration):
the `k`-th node of the flat list stores ID `length - 1 - k`; a node has a
non-sentinel ID exactly when it is on the flat list; all flat-list members are
valid `ids` slots; and the ID space is not exhausted. -/
structure RegOK (st : RegState) : Prop where
  idsFlat : ∀ k, k < st.flat.length →
    st.idOf (st.flat.getD k 0) = some (st.flat.length - 1 - k)
  memIff : ∀ i, i ∈ st.flat ↔ (st.idOf i).isSome
  bound : ∀ j, j ∈ st.flat → j < st.ids.length
  len32 : st.flat.length ≤ UINT32_MAX

/-! ### Basic list-read helper lemmas -/

theorem getD_set_self (l : List (Option Nat)) (i : Nat) (h : i < l.length)
    (v : Option Nat) : (l.set i v).getD i none = v := by
  simp [List.getD, List.getElem?_set, h]

theorem getD_set_ne (l : List (Option Nat)) (i j : Nat) (h : i ≠ j)
    (v : Option Nat) : (l.set i v).getD j none = l.getD j none := by
  simp [List.getD, List.getElem?_set, h]

theorem getD_set_self' {α : Type} (l : List α) (i : Nat) (h : i < l.length)
    (v d : α) : (l.set i v).getD i d = v := by
  simp [List.getD, List.getElem?_set, h]

theorem getD_set_ne' {α : Type} (l : List α) (i j : Nat) (h : i ≠ j)
    (v d : α) : (l.set i v).getD j d = l.getD j d := by
  simp [List.getD, List.getElem?_set, h]

/-! ### Preservation of the registry invariant -/

theorem getNb_of_regOK (st : RegState) (h : RegOK st) :
    getNbFileStackNodes st = st.flat.length := by
  cases hf : st.flat with
  | nil => simp [getNbFileStackNodes, hf]
  | cons a l =>
    have h0 := h.idsFlat 0 (by simp [hf])
    rw [hf] at h0
    simp only [List.getD_cons_zero, List.length_cons] at h0
    simp [getNbFileStackNodes, hf, RegState.idOf] at h0 ⊢
    simp [h0]

theorem regOK_step (st : RegState) (i : Nat) (hok : RegOK st)
    (hnone : st.idOf i = none) (hlt : i < st.ids.length)
    (hmax : getNbFileStackNodes st ≠ UINT32_MAX) :
    RegOK ⟨st.ids.set i (some (getNbFileStackNodes st)), i :: st.flat⟩ := by
  have hnb : getNbFileStackNodes st = st.flat.length := getNb_of_regOK st hok
  have hni : i ∉ st.flat := by
    intro hmem
    have := (hok.memIff i).mp hmem
    simp [hnone] at this
  constructor
  · intro k hk
    match k with
    | 0 =>
      show RegState.idOf _ ((i :: st.flat).getD 0 0) = _
      simp only [List.getD_cons_zero]
      show (st.ids.set i _).getD i none = _
      rw [getD_set_self _ _ hlt]
      simp [hnb]
    | k + 1 =>
      simp only [List.getD_cons_succ]
      have hk' : k < st.flat.length := by simpa using hk
      have he : st.flat.getD k 0 ∈ st.flat := by
        rw [List.getD_eq_getElem _ 0 hk']; exact List.getElem_mem hk'
      have hne : i ≠ st.flat.getD k 0 := fun h => hni (h ▸ he)
      show (st.ids.set i _).getD _ none = _
      rw [getD_set_ne _ _ _ hne]
      have h2 := hok.idsFlat k hk'
      rw [show RegState.idOf st (st.flat.getD k 0) = st.ids.getD (st.flat.getD k 0) none
            from rfl] at h2
      rw [h2]
      congr 1
      simp only [List.length_cons]
      omega
  · intro j
    constructor
    · intro hmem
      show ((st.ids.set i _).getD j none).isSome
      rcases List.mem_cons.mp hmem with hj | hj
      · subst hj; rw [getD_set_self _ _ hlt]; simp
      · have hne : i ≠ j := fun h => hni (h ▸ hj)
        rw [getD_set_ne _ _ _ hne]
        exact (hok.memIff j).mp hj
    · intro hs
      by_cases hj : j = i
      · subst hj; exact List.mem_cons_self _ _
      · have hne : i ≠ j := fun h => hj h.symm
        rw [show RegState.idOf ⟨st.ids.set i (some (getNbFileStackNodes st)), i :: st.flat⟩ j
              = (st.ids.set i (some (getNbFileStackNodes st))).getD j none from rfl,
            getD_set_ne _ _ _ hne] at hs
        exact List.mem_cons_of_mem _ ((hok.memIff j).mpr hs)
  · intro j hj
    simp only [List.length_set]
    rcases List.mem_cons.mp hj with hj | hj
    · subst hj; exact hlt
    · exact hok.bound j hj
  · simp only [List.length_cons]
    have := hok.len32
    omega

theorem registerNodeAux_regOK (arena : List FNodeData) (hwf : WFArena arena) :
    ∀ fuel i st st', st.ids.length = arena.length → RegOK st → i < arena.length →
      registerNodeAux arena fuel i st = .ok st' →
      RegOK st' ∧ st'.ids.length = arena.length := by
  intro fuel
  induction fuel with
  | zero =>
    intro i st st' hlen hok _ h
    simp only [registerNodeAux, Except.ok.injEq] at h
    exact h ▸ ⟨hok, hlen⟩
  | succ n ih =>
    intro i st st' hlen hok hi h
    rw [registerNodeAux] at h
    cases hid : st.idOf i with
    | some v =>
      rw [hid] at h
      simp only [Except.ok.injEq] at h
      exact h ▸ ⟨hok, hlen⟩
    | none =>
      rw [hid] at h
      simp only at h
      by_cases hmax : getNbFileStackNodes st = UINT32_MAX
      · rw [if_pos hmax] at h
        exact absurd h (by simp)
      · rw [if_neg hmax] at h
        have hok1 : RegOK ⟨st.ids.set i (some (getNbFileStackNodes st)), i :: st.flat⟩ :=
          regOK_step st i hok hid (hlen ▸ hi) hmax
        have hlen1 : (RegState.mk (st.ids.set i (some (getNbFileStackNodes st)))
            (i :: st.flat)).ids.length = arena.length := by
          simpa using hlen
        cases hp : (arena.getD i dNode).parent with
        | none =>
          rw [hp] at h
          simp only [Except.ok.injEq] at h
          exact h ▸ ⟨hok1, hlen1⟩
        | some p =>
          rw [hp] at h
          have hpi : p < i := hwf i hi p hp
          exact ih p _ st' hlen1 hok1 (Nat.lt_trans hpi hi) h

theorem out_RegisterNode_regOK (arena : List FNodeData) (hwf : WFArena arena)
    (i : Nat) (st st' : RegState) (hlen : st.ids.length = arena.length)
    (hok : RegOK st) (hi : i < arena.length)
    (h : out_RegisterNode arena i st = .ok st') :
    RegOK st' ∧ st'.ids.length = arena.length :=
  registerNodeAux_regOK arena hwf (i + 1) i st st' hlen hok hi h

theorem runRegs_regOK (arena : List FNodeData) (hwf : WFArena arena) :
    ∀ ops st st', (∀ o ∈ ops, o < arena.length) → st.ids.length = arena.length →
      RegOK st → runRegs arena ops st = .ok st' →
      RegOK st' ∧ st'.ids.length = arena.length := by
  intro ops
  induction ops with
  | nil =>
    intro st st' _ hlen hok h
    simp only [runRegs, Except.ok.injEq] at h
    exact h ▸ ⟨hok, hlen⟩
  | cons o rest ih =>
    intro st st' hops hlen hok h
    rw [runRegs] at h
    cases hr : out_RegisterNode arena o st with
    | error e => rw [hr] at h; exact absurd h (by simp)
    | ok st1 =>
      rw [hr] at h
      have h1 := out_RegisterNode_regOK arena hwf o st st1 hlen hok
        (hops o (List.mem_cons_self o rest)) hr
      exact ih st1 st' (fun x hx => hops x (List.mem_cons_of_mem o hx)) h1.2 h1.1 h

theorem regOK_init (arena : List FNodeData) :
    RegOK (initRegState arena) ∧ (initRegState arena).ids.length = arena.length := by
  refine ⟨⟨?_, ?_, ?_, ?_⟩, ?_⟩
  · intro k hk; simp [initRegState] at hk
  · intro i; simp [initRegState, RegState.idOf, List.getD]
  · intro j hj; simp [initRegState] at hj
  · simp [initRegState]
  · simp [initRegState]

theorem flatIDs_of_regOK (st : RegState) (hok : RegOK st) :
    flatIDs st = (List.range st.flat.length).reverse := by
  apply List.ext_getElem (by simp [flatIDs])
  intro k hk1 hk2
  have hk : k < st.flat.length := by simpa [flatIDs] using hk1
  have h1 : (flatIDs st)[k] = (st.idOf st.flat[k]).getD 0 := by
    simp [flatIDs]
  have h2 := hok.idsFlat k hk
  rw [List.getD_eq_getElem _ 0 hk] at h2
  rw [h1, h2]
  simp only [Option.getD_some, List.getElem_reverse, List.getElem_range, List.length_range]

/-- Decidable sufficient condition for `WFArena`, used by concrete witnesses. -/
theorem wfArena_of_bool (arena : List FNodeData)
    (h : (List.range arena.length).all
        (fun i => (arena.getD i dNode).parent.all (fun p => decide (p < i))) = true) :
    WFArena arena := by
  intro i hi p hp
  have h2 := List.all_eq_true.mp h i (List.mem_range.mpr hi)
  rw [hp] at h2
  simpa using h2

/-- C2: after any sequence of node registrations (each performed by
`out_RegisterNode` on a well-formed arena, starting from the empty registry),
the flat list's stored IDs, read from the head to the tail, are exactly
`count - 1, count - 2, ..., 0` — i.e. the contiguous range `[0, count)` in
strictly descending order, each ID one less than the previous — and the count
query `getNbFileStackNodes` (by definition the head node's ID plus one, or 0
when the list is empty) returns the number of registered nodes. -/
theorem C2_registry_contiguity (arena : List FNodeData) (ops : List Nat)
    (st : RegState) (hwf : WFArena arena) (hops : ∀ o ∈ ops, o < arena.length)
    (hrun : runRegs arena ops (initRegState arena) = .ok st) :
    flatIDs st = (List.range st.flat.length).reverse ∧
    getNbFileStackNodes st = st.flat.length := by
  have h := runRegs_regOK arena hwf ops (initRegState arena) st hops
    (regOK_init arena).2 (regOK_init arena).1 hrun
  exact ⟨flatIDs_of_regOK st h.1, getNb_of_regOK st h.1⟩

/-- Concrete arena used by the registry witnesses: a FILE root, a MACRO node
under it, and a REPEAT node under that. -/
def wArena : List FNodeData :=
  [⟨none, 10, .named 1 [65]⟩, ⟨some 0, 20, .named 2 [66]⟩, ⟨some 1, 5, .rept [2, 7]⟩]

/-- Witness for C2 at a concrete registration sequence. -/
theorem C2_registry_contiguity_witness :
    flatIDs ⟨[some 2, some 1, some 0], [0, 1, 2]⟩ =
      (List.range (RegState.flat ⟨[some 2, some 1, some 0], [0, 1, 2]⟩).length).reverse ∧
    getNbFileStackNodes ⟨[some 2, some 1, some 0], [0, 1, 2]⟩ =
      (RegState.flat ⟨[some 2, some 1, some 0], [0, 1, 2]⟩).length :=
  C2_registry_contiguity wArena [2, 0, 1] ⟨[some 2, some 1, some 0], [0, 1, 2]⟩
    (wfArena_of_bool wArena (by decide)) (by decide) rfl

/-!
## Characterization of one `out_RegisterNode` call (claim C3)

`unassignedChain` is a specification-side description of the nodes the
registration loop visits: the node itself and its ancestors, up to (excluding)
the first ancestor that already has an ID, or up to the root.
-/

/-- The walk of `out_RegisterNode` as a list: `i` and its strict ancestors,
stopping before the first node that already has an ID (or after the root). -/
def unassignedChain (arena : List FNodeData) :
    Nat → Nat → RegState → List Nat
  | 0, _, _ => []
  | fuel + 1, i, st =>
    match st.idOf i with
    | some _ => []
    | none =>
      i :: (match (arena.getD i dNode).parent with
            | none => []
            | some p => unassignedChain arena fuel p st)

theorem unassignedChain_le (arena : List FNodeData) (hwf : WFArena arena) :
    ∀ fuel i st, i < arena.length →
      ∀ j ∈ unassignedChain arena fuel i st, j ≤ i := by
  intro fuel
  induction fuel with
  | zero => intro i st _ j hj; simp [unassignedChain] at hj
  | succ n ih =>
    intro i st hi j hj
    rw [unassignedChain] at hj
    cases hid : st.idOf i with
    | some v => rw [hid] at hj; simp at hj
    | none =>
      rw [hid] at hj
      simp only [List.mem_cons] at hj
      rcases hj with hj | hj
      · omega
      · cases hp : (arena.getD i dNode).parent with
        | none => rw [hp] at hj; simp at hj
        | some p =>
          rw [hp] at hj
          have hpi : p < i := hwf i hi p hp
          have := ih p st (Nat.lt_trans hpi hi) j hj
          omega

theorem unassignedChain_set_above (arena : List FNodeData) (hwf : WFArena arena) :
    ∀ fuel j st i v flat', j < i →
      unassignedChain arena fuel j ⟨st.ids.set i v, flat'⟩ =
        unassignedChain arena fuel j st := by
  intro fuel
  induction fuel with
  | zero => intro j st i v flat' _; simp [unassignedChain]
  | succ n ih =>
    intro j st i v flat' hji
    rw [unassignedChain, unassignedChain]
    have hne : i ≠ j := by omega
    have hread : RegState.idOf ⟨st.ids.set i v, flat'⟩ j = st.idOf j := by
      show (st.ids.set i v).getD j none = st.ids.getD j none
      exact getD_set_ne st.ids i j hne v
    rw [hread]
    cases hid : st.idOf j with
    | some w => rfl
    | none =>
      cases hp : (arena.getD j dNode).parent with
      | none => rfl
      | some p =>
        by_cases hjl : j < arena.length
        · have hpj : p < j := hwf j hjl p hp
          show j :: unassignedChain arena n p ⟨st.ids.set i v, flat'⟩ =
            j :: unassignedChain arena n p st
          rw [ih p st i v flat' (Nat.lt_trans hpj hji)]
        · -- `j` out of range: its placeholder parent is `none`, contradiction
          have : (arena.getD j dNode) = dNode := by
            rw [List.getD_eq_default]
            omega
          rw [this] at hp
          simp [dNode] at hp

theorem registerNodeAux_chain (arena : List FNodeData) (hwf : WFArena arena) :
    ∀ fuel i st, i < arena.length → st.ids.length = arena.length →
      getNbFileStackNodes st + (unassignedChain arena fuel i st).length ≤ UINT32_MAX →
      ∃ st', registerNodeAux arena fuel i st = .ok st' ∧
        st'.flat = (unassignedChain arena fuel i st).reverse ++ st.flat ∧
        (∀ k, k < (unassignedChain arena fuel i st).length →
          st'.idOf ((unassignedChain arena fuel i st).getD k 0) =
            some (getNbFileStackNodes st + k)) ∧
        (∀ j, j ∉ unassignedChain arena fuel i st → st'.idOf j = st.idOf j) := by
  intro fuel
  induction fuel with
  | zero =>
    intro i st _ _ _
    exact ⟨st, rfl, by simp [unassignedChain], fun k hk => by simp [unassignedChain] at hk,
      fun j _ => rfl⟩
  | succ n ih =>
    intro i st hi hlen hov
    cases hid : st.idOf i with
    | some v =>
      have hchain : unassignedChain arena (n + 1) i st = [] := by
        rw [unassignedChain, hid]
      refine ⟨st, ?_, ?_, ?_, ?_⟩
      · simp only [registerNodeAux, hid]
      · rw [hchain]; simp
      · intro k hk; rw [hchain] at hk; simp at hk
      · intro j _; rfl
    | none =>
      have hch : unassignedChain arena (n + 1) i st =
          i :: (match (arena.getD i dNode).parent with
                | none => []
                | some p => unassignedChain arena n p st) := by
        rw [unassignedChain, hid]
      have hlt : i < st.ids.length := hlen ▸ hi
      cases hp : (arena.getD i dNode).parent with
      | none =>
        have hchain : unassignedChain arena (n + 1) i st = [i] := by rw [hch, hp]
        have hmax : getNbFileStackNodes st ≠ UINT32_MAX := by
          rw [hchain] at hov; simp at hov; omega
        refine ⟨⟨st.ids.set i (some (getNbFileStackNodes st)), i :: st.flat⟩, ?_, ?_, ?_, ?_⟩
        · simp only [registerNodeAux, hid, hp, if_neg hmax]
        · rw [hchain]; simp
        · intro k hk
          rw [hchain] at hk ⊢
          simp only [List.length_singleton] at hk
          have hk0 : k = 0 := by omega
          subst hk0
          simp only [List.getD_cons_zero, Nat.add_zero]
          show (st.ids.set i (some (getNbFileStackNodes st))).getD i none = _
          rw [getD_set_self _ _ hlt]
        · intro j hj
          rw [hchain] at hj
          simp only [List.mem_singleton] at hj
          show (st.ids.set i (some (getNbFileStackNodes st))).getD j none = _
          rw [getD_set_ne st.ids i j (fun h => hj h.symm)]
          rfl
      | some p =>
        have hpi : p < i := hwf i hi p hp
        have hchain : unassignedChain arena (n + 1) i st =
            i :: unassignedChain arena n p st := by rw [hch, hp]
        have hchain1 : unassignedChain arena n p
            ⟨st.ids.set i (some (getNbFileStackNodes st)), i :: st.flat⟩ =
            unassignedChain arena n p st :=
          unassignedChain_set_above arena hwf n p st i _ _ hpi
        have hmax : getNbFileStackNodes st ≠ UINT32_MAX := by
          rw [hchain] at hov; simp at hov; omega
        have hnb1 : getNbFileStackNodes
            ⟨st.ids.set i (some (getNbFileStackNodes st)), i :: st.flat⟩ =
            getNbFileStackNodes st + 1 := by
          show ((RegState.mk (st.ids.set i (some (getNbFileStackNodes st)))
            (i :: st.flat)).idOf i).getD 0 + 1 = _
          show ((st.ids.set i (some (getNbFileStackNodes st))).getD i none).getD 0 + 1 = _
          rw [getD_set_self _ _ hlt]
          rfl
        have hlen1 : (RegState.mk (st.ids.set i (some (getNbFileStackNodes st)))
            (i :: st.flat)).ids.length = arena.length := by simpa using hlen
        have hov1 : getNbFileStackNodes
              ⟨st.ids.set i (some (getNbFileStackNodes st)), i :: st.flat⟩ +
            (unassignedChain arena n p
              ⟨st.ids.set i (some (getNbFileStackNodes st)), i :: st.flat⟩).length ≤
            UINT32_MAX := by
          rw [hnb1, hchain1]
          rw [hchain] at hov
          simp only [List.length_cons] at hov
          omega
        obtain ⟨st', hrun, hflat, hids, hunch⟩ :=
          ih p _ (Nat.lt_trans hpi hi) hlen1 hov1
        refine ⟨st', ?_, ?_, ?_, ?_⟩
        · simp only [registerNodeAux, hid, hp, if_neg hmax]
          exact hrun
        · rw [hchain, hflat, hchain1]
          simp
        · intro k hk
          rw [hchain] at hk ⊢
          match k with
          | 0 =>
            simp only [List.getD_cons_zero, Nat.add_zero]
            have hinot : i ∉ unassignedChain arena n p
                ⟨st.ids.set i (some (getNbFileStackNodes st)), i :: st.flat⟩ := by
              rw [hchain1]
              intro hmem
              have := unassignedChain_le arena hwf n p st (Nat.lt_trans hpi hi) i hmem
              omega
            rw [hunch i hinot]
            show (st.ids.set i (some (getNbFileStackNodes st))).getD i none = _
            rw [getD_set_self _ _ hlt]
          | k + 1 =>
            simp only [List.getD_cons_succ]
            have hk' : k < (unassignedChain arena n p st).length := by
              simp only [List.length_cons] at hk; omega
            have hids' := hids k (by rw [hchain1]; exact hk')
            rw [hchain1] at hids'
            rw [hids', hnb1]
            congr 1
            omega
        · intro j hj
          rw [hchain] at hj
          simp only [List.mem_cons, not_or] at hj
          obtain ⟨hji, hjc⟩ := hj
          rw [hunch j (by rw [hchain1]; exact hjc)]
          show (st.ids.set i (some (getNbFileStackNodes st))).getD j none = _
          rw [getD_set_ne st.ids i j (fun h => hji h.symm)]
          rfl

/-- C3: `out_RegisterNode` is idempotent — on a node that already has an ID it
changes nothing; on an unregistered node whose parent is registered it assigns
exactly one new ID (the next available one) and prepends only that node; and
in general it walks up through the parents, assigning each unassigned ancestor
the next available ID and prepending it, stopping at the first ancestor that
already has an ID or at the root (the walked nodes are `unassignedChain`). -/
theorem C3_register_idempotent (arena : List FNodeData) (st : RegState) (i : Nat) :
    (∀ id, st.idOf i = some id → out_RegisterNode arena i st = .ok st) ∧
    (st.idOf i = none → ∀ p q, (arena.getD i dNode).parent = some p →
      st.idOf p = some q → p < i → i < st.ids.length →
      getNbFileStackNodes st ≠ UINT32_MAX →
      out_RegisterNode arena i st =
        .ok ⟨st.ids.set i (some (getNbFileStackNodes st)), i :: st.flat⟩) ∧
    (WFArena arena → i < arena.length → st.ids.length = arena.length →
      getNbFileStackNodes st + (unassignedChain arena (i + 1) i st).length ≤
        UINT32_MAX →
      ∃ st', out_RegisterNode arena i st = .ok st' ∧
        st'.flat = (unassignedChain arena (i + 1) i st).reverse ++ st.flat ∧
        (∀ k, k < (unassignedChain arena (i + 1) i st).length →
          st'.idOf ((unassignedChain arena (i + 1) i st).getD k 0) =
            some (getNbFileStackNodes st + k)) ∧
        (∀ j, j ∉ unassignedChain arena (i + 1) i st → st'.idOf j = st.idOf j)) := by
  refine ⟨?_, ?_, ?_⟩
  · intro id hid
    show registerNodeAux arena (i + 1) i st = .ok st
    simp only [registerNodeAux, hid]
  · intro hid p q hp hq hpi hlt hmax
    show registerNodeAux arena (i + 1) i st = _
    simp only [registerNodeAux, hid, hp, if_neg hmax]
    obtain ⟨m, rfl⟩ : ∃ m, i = m + 1 := ⟨i - 1, by omega⟩
    rw [registerNodeAux]
    have hread : RegState.idOf
        ⟨st.ids.set (m + 1) (some (getNbFileStackNodes st)), (m + 1) :: st.flat⟩ p =
        some q := by
      show (st.ids.set (m + 1) (some (getNbFileStackNodes st))).getD p none = _
      rw [getD_set_ne st.ids (m + 1) p (by omega)]
      exact hq
    rw [hread]
  · intro hwf hi hlen hov
    exact registerNodeAux_chain arena hwf (i + 1) i st hi hlen hov

/-- Witness for C3: idempotence on an already-registered node, and the general
walk on the fresh three-node arena (registering the REPEAT node also registers
its MACRO and FILE ancestors, in one call). -/
theorem C3_register_idempotent_witness :
    out_RegisterNode wArena 2 ⟨[some 2, some 1, some 0], [0, 1, 2]⟩ =
      .ok ⟨[some 2, some 1, some 0], [0, 1, 2]⟩ ∧
    ∃ st', out_RegisterNode wArena 2 (initRegState wArena) = .ok st' ∧
      st'.flat = (unassignedChain wArena 3 2 (initRegState wArena)).reverse ++
        (initRegState wArena).flat ∧
      (∀ k, k < (unassignedChain wArena 3 2 (initRegState wArena)).length →
        st'.idOf ((unassignedChain wArena 3 2 (initRegState wArena)).getD k 0) =
          some (getNbFileStackNodes (initRegState wArena) + k)) ∧
      (∀ j, j ∉ unassignedChain wArena 3 2 (initRegState wArena) →
        st'.idOf j = (initRegState wArena).idOf j) :=
  ⟨(C3_register_idempotent wArena ⟨[some 2, some 1, some 0], [0, 1, 2]⟩ 2).1 0 rfl,
   (C3_register_idempotent wArena (initRegState wArena) 2).2.2
     (wfArena_of_bool wArena (by decide)) (by decide) (by decide) (by decide)⟩

/-!
## Serialization of the provenance table (claims C7 and C9)
-/

/-- Kind tag byte of a REPEAT node.  Modelled from the spec: the tag values
live in `asm/fstack.h` / `linkdefs.h`, which are not part of the given source;
only the 1-byte "node kind tag" of the binary layout matters here. -/
def NODE_REPT : Nat := 0

/-- The descending `for (uint32_t i = reptDepth; i--; ) fputlong(reptNode->iters[i])`
loop of `writeFileStackNode`: writes `iters[n-1], ..., iters[0]`. -/
def writeItersFrom (iters : List Nat) : Nat → List Nat
  | 0 => []
  | n + 1 => fputlong (iters.getD n 0) ++ writeItersFrom iters n

/-- `writeFileStackNode`: 4-byte parent ID (`-1` when there is no parent, and
an unregistered parent reads as its initialized `-1` sentinel), 4-byte line
number, 1-byte node kind tag; then the name string for FILE/MACRO nodes, or
the 4-byte depth followed by the per-depth counters in *reverse* storage order
for REPEAT nodes. -/
def parentIDField (st : RegState) (par : Option Nat) : Nat :=
  match par with
  | some p => (st.idOf p).getD UINT32_MAX
  | none => UINT32_MAX

def writeFileStackNode (arena : List FNodeData) (st : RegState) (i : Nat) :
    List Nat :=
  let node := arena.getD i dNode
  fputlong (parentIDField st node.parent) ++
  fputlong node.lineNo ++
  (match node.content with
   | .named kindTag name => wbyte kindTag :: fputstring name
   | .rept iters =>
     wbyte NODE_REPT :: (fputlong iters.length ++ writeItersFrom iters iters.length))

/-- Reading `node->ID` as the C does in the contiguity check of
`out_WriteObject`: a raw `uint32_t`, with the unassigned sentinel `-1`. -/
def nodeIdRead (st : RegState) (i : Nat) : Nat := (st.idOf i).getD UINT32_MAX

/-- `uint32_t` decrement `ID - 1`, with wraparound (0 - 1 = 0xFFFFFFFF). -/
def subOne32 (x : Nat) : Nat := (x + UINT32_MAX) % 2 ^ 32

/-- The provenance-table loop of `out_WriteObject`: write each flat-list node
in order, failing fatally when a node is followed by one whose ID is not
exactly one less (`node->next->ID != node->ID - 1`). -/
def writeFileStackNodesAux (arena : List FNodeData) (st : RegState) :
    List Nat → Except String (List Nat)
  | [] => .ok []
  | i :: rest =>
    let bytes := writeFileStackNode arena st i
    match rest with
    | [] => .ok bytes
    | j :: _ =>
      if nodeIdRead st j = subOne32 (nodeIdRead st i) then
        match writeFileStackNodesAux arena st rest with
        | .error e => .error e
        | .ok bs => .ok (bytes ++ bs)
      else .error "Internal error: fstack node ordering"

theorem subOne32_of_pos (x : Nat) (h1 : 1 ≤ x) (h2 : x ≤ UINT32_MAX) :
    subOne32 x = x - 1 := by
  simp only [subOne32, UINT32_MAX] at *
  omega

theorem writeFSNodes_ok_iff (arena : List FNodeData) (st : RegState) :
    ∀ l, (∃ bs, writeFileStackNodesAux arena st l = .ok bs) ↔
      List.Chain' (fun a b => nodeIdRead st b = subOne32 (nodeIdRead st a)) l := by
  intro l
  induction l with
  | nil => simp [writeFileStackNodesAux]
  | cons i rest ih =>
    cases rest with
    | nil => simp [writeFileStackNodesAux]
    | cons j rest' =>
      rw [List.chain'_cons, ← ih]
      constructor
      · rintro ⟨bs, hbs⟩
        rw [writeFileStackNodesAux] at hbs
        by_cases hc : nodeIdRead st j = subOne32 (nodeIdRead st i)
        · rw [if_pos hc] at hbs
          refine ⟨hc, ?_⟩
          cases hr : writeFileStackNodesAux arena st (j :: rest') with
          | error e => rw [hr] at hbs; exact absurd hbs (by simp)
          | ok bs2 => exact ⟨bs2, rfl⟩
        · rw [if_neg hc] at hbs
          exact absurd hbs (by simp)
      · rintro ⟨hc, bs2, hbs2⟩
        refine ⟨writeFileStackNode arena st i ++ bs2, ?_⟩
        rw [writeFileStackNodesAux, if_pos hc, hbs2]

/-- C7: serializing the provenance table raises the fatal internal error if
and only if two adjacent flat-list entries have stored IDs that are not
exactly one apart (next = current - 1, in `uint32_t` arithmetic); and for
every state reached by a sequence of `out_RegisterNode` registrations from
the empty registry, the fatal branch is unreachable (the walk succeeds). -/
theorem C7_contiguity_fatal (arena : List FNodeData) (st : RegState) :
    ((∃ bs, writeFileStackNodesAux arena st st.flat = .ok bs) ↔
      List.Chain' (fun a b => nodeIdRead st b = subOne32 (nodeIdRead st a)) st.flat) ∧
    (∀ ops, WFArena arena → (∀ o ∈ ops, o < arena.length) →
      runRegs arena ops (initRegState arena) = .ok st →
      ∃ bs, writeFileStackNodesAux arena st st.flat = .ok bs) := by
  refine ⟨writeFSNodes_ok_iff arena st st.flat, ?_⟩
  intro ops hwf hops hrun
  have hok := (runRegs_regOK arena hwf ops (initRegState arena) st hops
    (regOK_init arena).2 (regOK_init arena).1 hrun).1
  rw [writeFSNodes_ok_iff arena st st.flat]
  rw [List.chain'_iff_get]
  intro k hk
  have hlen : st.flat.length ≤ UINT32_MAX := hok.len32
  have h1 := hok.idsFlat k (by omega)
  have h2 := hok.idsFlat (k + 1) (by omega)
  rw [List.getD_eq_getElem _ 0 (by omega : k < st.flat.length)] at h1
  rw [List.getD_eq_getElem _ 0 (by omega : k + 1 < st.flat.length)] at h2
  show nodeIdRead st (st.flat.get ⟨k + 1, by omega⟩) =
    subOne32 (nodeIdRead st (st.flat.get ⟨k, by omega⟩))
  simp only [List.get_eq_getElem]
  rw [show nodeIdRead st st.flat[k + 1] = st.flat.length - 1 - (k + 1) by
    simp [nodeIdRead, h2]]
  rw [show nodeIdRead st st.flat[k] = st.flat.length - 1 - k by
    simp [nodeIdRead, h1]]
  rw [subOne32_of_pos _ (by omega) (by omega)]
  omega

/-- Witness for C7: on the registry state reached by registering the REPEAT
node (which pulls in its two ancestors), the serializing walk succeeds. -/
theorem C7_contiguity_fatal_witness :
    ∃ bs, writeFileStackNodesAux wArena ⟨[some 2, some 1, some 0], [0, 1, 2]⟩
      (RegState.flat ⟨[some 2, some 1, some 0], [0, 1, 2]⟩) = .ok bs :=
  (C7_contiguity_fatal wArena ⟨[some 2, some 1, some 0], [0, 1, 2]⟩).2 [2, 0, 1]
    (wfArena_of_bool wArena (by decide)) (by decide) rfl


theorem writeItersFrom_take (iters : List Nat) :
    ∀ n, n ≤ iters.length →
      writeItersFrom iters n = (((iters.take n).reverse).map fputlong).flatten := by
  intro n
  induction n with
  | zero => intro _; simp [writeItersFrom]
  | succ m ih =>
    intro h
    rw [writeItersFrom, ih (by omega)]
    rw [List.getD_eq_getElem _ 0 (by omega : m < iters.length)]
    have hm : iters[m]? = some iters[m] := List.getElem?_eq_getElem (by omega)
    rw [List.take_succ, hm]
    rw [show (some iters[m]).toList = [iters[m]] from rfl]
    rw [List.reverse_append, List.reverse_singleton, List.singleton_append,
      List.map_cons, List.flatten_cons]

theorem writeItersFrom_reverse (iters : List Nat) :
    writeItersFrom iters iters.length = ((iters.reverse).map fputlong).flatten := by
  rw [writeItersFrom_take iters iters.length (Nat.le_refl _), List.take_length]

theorem flatten_map_fputlong_length (l : List Nat) :
    ((l.map fputlong).flatten).length = 4 * l.length := by
  induction l with
  | nil => simp
  | cons a t ih =>
    rw [List.map_cons, List.flatten_cons, List.length_append, ih]
    rw [show (fputlong a).length = 4 from rfl]
    simp only [List.length_cons]
    omega

/-- C9: a REPEAT node's serialized record is the 4-byte parent ID (all-ones
when there is no parent), the 4-byte line number, the 1-byte kind tag, the
4-byte nesting depth, and then exactly `depth` 4-byte iteration counters in
the reverse of their storage order (deepest first). -/
theorem C9_rept_record (arena : List FNodeData) (st : RegState) (i : Nat)
    (par : Option Nat) (ln : Nat) (iters : List Nat)
    (h : arena.getD i dNode = ⟨par, ln, .rept iters⟩) :
    writeFileStackNode arena st i =
      fputlong (parentIDField st par) ++
      fputlong ln ++
      wbyte NODE_REPT ::
        (fputlong iters.length ++ ((iters.reverse).map fputlong).flatten) ∧
    (((iters.reverse).map fputlong).flatten).length = 4 * iters.length ∧
    (fputlong iters.length).length = 4 := by
  refine ⟨?_, ?_, rfl⟩
  · simp only [writeFileStackNode, h, writeItersFrom_reverse]
  · rw [flatten_map_fputlong_length, List.length_reverse]

/-- Witness for C9 at the concrete REPEAT node of `wArena` (two iteration
counters, stored `[2, 7]`, written `7` then `2`). -/
theorem C9_rept_record_witness :
    writeFileStackNode wArena ⟨[some 2, some 1, some 0], [0, 1, 2]⟩ 2 =
      fputlong (parentIDField ⟨[some 2, some 1, some 0], [0, 1, 2]⟩ (some 1)) ++
      fputlong 5 ++
      wbyte NODE_REPT ::
        (fputlong ([2, 7] : List Nat).length ++
          ((([2, 7] : List Nat).reverse).map fputlong).flatten) ∧
    (((([2, 7] : List Nat).reverse).map fputlong).flatten).length =
      4 * ([2, 7] : List Nat).length ∧
    (fputlong ([2, 7] : List Nat).length).length = 4 :=
  C9_rept_record wArena ⟨[some 2, some 1, some 0], [0, 1, 2]⟩ 2 (some 1) 5 [2, 7] rfl

/-!
## Symbols, the symbol ID allocator, and the RPN rewriter

`struct Symbol` and the `sym_*` accessors live in `asm/symbol.h` (not part of
the given source); the fields and accessor meanings used by `output.c` are
modelled from the spec: a symbol has a name, an export flag, whether it is
currently a compile-time-known constant (and that value), whether it is the
program-counter pseudo-symbol, a provenance node, and a mutable object-file ID
(`-1` sentinel = `none`).  The symbol table itself is a list; `sym_FindSymbol`
is lookup of the first symbol with the given name.
-/

/-- RPN opcode byte values.  Modelled from the spec: the numeric values are
declared in `linkdefs.h`, which is not part of the given source; the claims
depend only on these four opcodes being distinct bytes. -/
def RPN_CONST : Nat := 0x80

def RPN_SYM : Nat := 0x81

def RPN_BANK_SYM : Nat := 0x50

def RPN_BANK_SECT : Nat := 0x51

structure Symb where
  name : List Nat
  isExported : Bool
  isConstant : Bool
  constValue : Nat
  isPC : Bool
  src : Nat
  ID : Option Nat
deriving Repr, DecidableEq

/-- Placeholder symbol for out-of-range reads (a dangling `struct Symbol *`
would be undefined behavior in the C). -/
def dSym : Symb := ⟨[], false, false, 0, false, 0, none⟩

/-- `struct Patch`. -/
structure Patch where
  src : Nat
  lineNo : Nat
  nOffset : Nat
  pcSection : Option Nat
  pcOffset : Nat
  type : Nat
  nRPNSize : Nat
  pRPN : List Nat
deriving Repr, DecidableEq

/-- Section modifier (`SECTION_NONE` / `SECTION_UNION` / `SECTION_FRAGMENT`,
from `section.h`, modelled from the spec). -/
inductive SectModifier where
  | normal
  | union
  | fragment
deriving Repr, DecidableEq

/-- `struct Section` (the fields `output.c` reads). -/
structure Sect where
  name : List Nat
  size : Nat
  type : Nat
  modifier : SectModifier
  org : Nat
  bank : Nat
  align : Nat
  alignOfs : Nat
  data : List Nat
  patches : List Patch
deriving Repr, DecidableEq

/-- `struct Assertion`: the patch plus the message.  (The C struct also has a
`section` member that `out_CreateAssert` never initializes; it is omitted.) -/
structure Assertion where
  patch : Patch
  message : List Nat
deriving Repr, DecidableEq

/-- The module-global mutable state of `output.c`: the provenance registry,
the front-end symbol table (with the mutable per-symbol `ID`), the
`objectSymbols` list (appended at the tail) with its length `nbSymbols`, the
section list, the current section, and the assertion list. -/
structure OutState where
  reg : RegState
  symbols : List Symb
  objectSymbols : List Nat
  nbSymbols : Nat
  sections : List Sect
  currentSection : Option Nat
  assertions : List Assertion
deriving Repr, DecidableEq

/-- `sym_FindSymbol`: index of the first symbol with the given name. -/
def findSymbol (symbols : List Symb) (nm : List Nat) : Option Nat :=
  symbols.findIdx? (fun s => decide (s.name = nm))

/-- `registerSymbol`: append the symbol to `objectSymbols`, register its
provenance node, fail fatally if the ID counter is exhausted, then assign
`sym->ID = nbSymbols++`. -/
def registerSymbol (arena : List FNodeData) (idx : Nat) (st : OutState) :
    Except String OutState :=
  let st1 := { st with objectSymbols := st.objectSymbols ++ [idx] }
  match out_RegisterNode arena (st1.symbols.getD idx dSym).src st1.reg with
  | .error e => .error e
  | .ok reg' =>
    if st1.nbSymbols = UINT32_MAX then
      .error "Registered too many symbols; try splitting up your files"
    else
      .ok { st1 with
        reg := reg',
        symbols := st1.symbols.set idx
          { st1.symbols.getD idx dSym with ID := some st1.nbSymbols },
        nbSymbols := st1.nbSymbols + 1 }

/-- `getSymbolID`: returns the symbol's object-file ID, registering the symbol
first when it has none (unless it is the program-counter pseudo-symbol, which
is never registered; reading its `-1` ID yields the sentinel). -/
def getSymbolID (arena : List FNodeData) (idx : Nat) (st : OutState) :
    Except String (Nat × OutState) :=
  let sym := st.symbols.getD idx dSym
  if sym.ID = none ∧ sym.isPC = false then
    match registerSymbol arena idx st with
    | .error e => .error e
    | .ok st' => .ok (((st'.symbols.getD idx dSym).ID).getD UINT32_MAX, st')
  else
    .ok (sym.ID.getD UINT32_MAX, st)

/-- The NUL-terminated-name scan of `writerpn`
(`for (unsigned int i = -1; (tzSym[++i] = popbyte()); );`): splits off the
name bytes before the first 0.  `none` when no NUL follows (the C would read
out of bounds). -/
def scanName : List Nat → Option (List Nat × List Nat)
  | [] => none
  | b :: rest =>
    if b = 0 then some ([], rest)
    else match scanName rest with
         | none => none
         | some (nm, r) => some (b :: nm, r)

theorem scanName_length : ∀ l nm r, scanName l = some (nm, r) →
    r.length < l.length := by
  intro l
  induction l with
  | nil => intro nm r h; simp [scanName] at h
  | cons b rest ih =>
    intro nm r h
    rw [scanName] at h
    by_cases hb : b = 0
    · rw [if_pos hb] at h
      simp at h
      obtain ⟨-, h2⟩ := h
      subst h2
      simp
    · rw [if_neg hb] at h
      cases hs : scanName rest with
      | none => rw [hs] at h; simp at h
      | some pr =>
        rw [hs] at h
        obtain ⟨nm', r'⟩ := pr
        simp at h
        obtain ⟨-, h2⟩ := h
        subst h2
        have := ih nm' r' hs
        simp
        omega

/-- `writerpn`: rewrite an RPN byte sequence, resolving name references.
Constants are copied through; `RPN_SYM` of a currently-constant symbol is
inlined as `RPN_CONST` + value, otherwise emitted as `RPN_SYM` + symbol ID
(allocating the ID if needed); `RPN_BANK_SYM` is always emitted by ID;
`RPN_BANK_SECT` copies the section name through; any other byte is copied
through.  Out-of-bounds reads and `sym_FindSymbol` returning NULL are
undefined behavior in the C and are modelled as errors.  The extra fuel
argument bounds the loop; every iteration consumes at least one input byte,
so fuel `length + 1` (used by the `writerpnTop` wrapper) is never
exhausted. -/
def writerpn (arena : List FNodeData) :
    Nat → List Nat → OutState → Except String (List Nat × OutState)
  | 0, _, _ => .error "rewriter out of fuel"
  | _ + 1, [], st => .ok ([], st)
  | fuel + 1, b :: rest, st =>
    if b = RPN_CONST then
      match rest with
      | b1 :: b2 :: b3 :: b4 :: rest' =>
        match writerpn arena fuel rest' st with
        | .error e => .error e
        | .ok (out, st') =>
          .ok (wbyte RPN_CONST :: wbyte b1 :: wbyte b2 :: wbyte b3 :: wbyte b4 :: out,
            st')
      | _ => .error "RPN expression truncated"
    else if b = RPN_SYM then
      match scanName rest with
      | none => .error "RPN symbol name unterminated"
      | some (nm, rest') =>
        match findSymbol st.symbols nm with
        | none => .error "symbol not found"
        | some si =>
          let sym := st.symbols.getD si dSym
          if sym.isConstant then
            match writerpn arena fuel rest' st with
            | .error e => .error e
            | .ok (out, st') =>
              .ok (wbyte RPN_CONST :: (fputlong sym.constValue ++ out), st')
          else
            match getSymbolID arena si st with
            | .error e => .error e
            | .ok (value, st1) =>
              match writerpn arena fuel rest' st1 with
              | .error e => .error e
              | .ok (out, st') =>
                .ok (wbyte RPN_SYM :: (fputlong value ++ out), st')
    else if b = RPN_BANK_SYM then
      match scanName rest with
      | none => .error "RPN symbol name unterminated"
      | some (nm, rest') =>
        match findSymbol st.symbols nm with
        | none => .error "symbol not found"
        | some si =>
          match getSymbolID arena si st with
          | .error e => .error e
          | .ok (value, st1) =>
            match writerpn arena fuel rest' st1 with
            | .error e => .error e
            | .ok (out, st') =>
              .ok (wbyte RPN_BANK_SYM :: (fputlong value ++ out), st')
    else if b = RPN_BANK_SECT then
      match scanName rest with
      | none => .error "RPN section name unterminated"
      | some (nm, rest') =>
        match writerpn arena fuel rest' st with
        | .error e => .error e
        | .ok (out, st') =>
          .ok (wbyte RPN_BANK_SECT :: ((nm.map wbyte ++ [0]) ++ out), st')
    else
      match writerpn arena fuel rest st with
      | .error e => .error e
      | .ok (out, st') => .ok (wbyte b :: out, st')

/-- The rewriter as `allocpatch` invokes it, with enough fuel for the whole
input. -/
def writerpnTop (arena : List FNodeData) (rpn : List Nat) (st : OutState) :
    Except String (List Nat × OutState) :=
  writerpn arena (rpn.length + 1) rpn st

theorem scanName_append (name rest : List Nat) (h : ∀ b ∈ name, b ≠ 0) :
    scanName (name ++ 0 :: rest) = some (name, rest) := by
  induction name with
  | nil => simp [scanName]
  | cons b nm ih =>
    have hb : b ≠ 0 := h b (by simp)
    rw [List.cons_append, scanName, if_neg hb,
      ih (fun x hx => h x (by simp [hx]))]

/-- C6: rewriting a push-named-symbol-bank opcode always emits
`RPN_BANK_SYM` followed by the symbol's 4 little-endian ID bytes, obtained
from `getSymbolID` (which allocates an ID if needed) — with no hypothesis on
the symbol, in particular also when it is a compile-time-known constant; a
constant value is never inlined for this opcode. -/
theorem C6_push_symbol_bank (arena : List FNodeData) (st : OutState)
    (fuel : Nat) (name rest : List Nat) (si : Nat)
    (hname : ∀ b ∈ name, b ≠ 0)
    (hfind : findSymbol st.symbols name = some si) :
    writerpn arena (fuel + 1) (RPN_BANK_SYM :: (name ++ 0 :: rest)) st =
      (match getSymbolID arena si st with
       | .error e => .error e
       | .ok (value, st1) =>
         match writerpn arena fuel rest st1 with
         | .error e => .error e
         | .ok (out, st') =>
           .ok (wbyte RPN_BANK_SYM :: (fputlong value ++ out), st')) ∧
    (∀ out st', writerpn arena (fuel + 1) (RPN_BANK_SYM :: (name ++ 0 :: rest)) st =
        .ok (out, st') →
      ∃ value st1 outRest, getSymbolID arena si st = .ok (value, st1) ∧
        out = wbyte RPN_BANK_SYM :: (fputlong value ++ outRest) ∧
        writerpn arena fuel rest st1 = .ok (outRest, st')) := by
  have heq : writerpn arena (fuel + 1) (RPN_BANK_SYM :: (name ++ 0 :: rest)) st =
      (match getSymbolID arena si st with
       | .error e => .error e
       | .ok (value, st1) =>
         match writerpn arena fuel rest st1 with
         | .error e => .error e
         | .ok (out, st') =>
           .ok (wbyte RPN_BANK_SYM :: (fputlong value ++ out), st')) := by
    simp only [writerpn, if_neg (show ¬(RPN_BANK_SYM = RPN_CONST) by decide),
      if_neg (show ¬(RPN_BANK_SYM = RPN_SYM) by decide),
      scanName_append name rest hname, hfind, if_true]
  refine ⟨heq, ?_⟩
  intro out st' h
  rw [heq] at h
  cases hg : getSymbolID arena si st with
  | error e => rw [hg] at h; exact absurd h (by simp)
  | ok pr =>
    obtain ⟨value, st1⟩ := pr
    rw [hg] at h
    have h2 : (match writerpn arena fuel rest st1 with
        | Except.error e => Except.error e
        | Except.ok (out, st') =>
          Except.ok (wbyte RPN_BANK_SYM :: (fputlong value ++ out), st')) =
        Except.ok (out, st') := h
    cases hw : writerpn arena fuel rest st1 with
    | error e => rw [hw] at h2; exact absurd h2 (by simp)
    | ok pr2 =>
      obtain ⟨outRest, st2⟩ := pr2
      rw [hw] at h2
      have h3 : (Except.ok (wbyte RPN_BANK_SYM :: (fputlong value ++ outRest), st2) :
          Except String (List Nat × OutState)) = Except.ok (out, st') := h2
      simp only [Except.ok.injEq, Prod.mk.injEq] at h3
      obtain ⟨h1x, h2x⟩ := h3
      exact ⟨value, st1, outRest, rfl, h1x.symm, by rw [hw, h2x]⟩

/-- Concrete two-symbol table for the rewriter witnesses: symbol `"x"`
(byte 120) is a compile-time constant, symbol `"y"` (byte 121) is exported
and not constant. -/
def wSyms : List Symb :=
  [⟨[120], false, true, 287454020, false, 0, none⟩,
   ⟨[121], true, false, 0, false, 1, none⟩]

/-- Concrete initial output state for the rewriter witnesses. -/
def wOut : OutState :=
  { reg := initRegState wArena, symbols := wSyms, objectSymbols := [],
    nbSymbols := 0, sections := [], currentSection := none, assertions := [] }

/-- Witness for C6: the bank of constant symbol `"x"` is still emitted by
ID. -/
theorem C6_push_symbol_bank_witness :
    writerpn wArena 1 (RPN_BANK_SYM :: ([120] ++ 0 :: [])) wOut =
      (match getSymbolID wArena 0 wOut with
       | .error e => .error e
       | .ok (value, st1) =>
         match writerpn wArena 0 [] st1 with
         | .error e => .error e
         | .ok (out, st') =>
           .ok (wbyte RPN_BANK_SYM :: (fputlong value ++ out), st')) :=
  (C6_push_symbol_bank wArena wOut 0 [120] [] 0 (by decide) (by decide)).1

/-!
## Symbol ID laziness (claim C5)

A "reference from a patch's rewritten expression" is a `getSymbolID` call (the
only way `writerpn` resolves a symbol); `runRefs` runs a sequence of them.
`registerExportedSymbol` / `sweepExported` model the
`sym_ForEach(registerExportedSymbol, NULL)` final sweep of `out_WriteObject`
(the symbol-table iteration order is modelled as index order; the claim is
order-independent).
-/

/-- A sequence of patch references to symbols, each resolved by
`getSymbolID`. -/
def runRefs (arena : List FNodeData) : List Nat → OutState → Except String OutState
  | [], st => .ok st
  | r :: rest, st =>
    match getSymbolID arena r st with
    | .error e => .error e
    | .ok (_, st') => runRefs arena rest st'

/-- `registerExportedSymbol`: register the symbol iff it is exported and does
not have an ID yet. -/
def registerExportedSymbol (arena : List FNodeData) (idx : Nat) (st : OutState) :
    Except String OutState :=
  let sym := st.symbols.getD idx dSym
  if sym.isExported = true ∧ sym.ID = none then registerSymbol arena idx st
  else .ok st

def sweepExportedAux (arena : List FNodeData) :
    List Nat → OutState → Except String OutState
  | [], st => .ok st
  | idx :: rest, st =>
    match registerExportedSymbol arena idx st with
    | .error e => .error e
    | .ok st' => sweepExportedAux arena rest st'

/-- The `sym_ForEach(registerExportedSymbol, NULL)` sweep over the whole
symbol table. -/
def sweepExported (arena : List FNodeData) (st : OutState) :
    Except String OutState :=
  sweepExportedAux arena (List.range st.symbols.length) st

/-- Object-symbol-list invariant: a symbol occurs in `objectSymbols` exactly
once if it has an ID and not at all otherwise. -/
def SymsOK (st : OutState) : Prop :=
  ∀ j, st.objectSymbols.count j =
    if (st.symbols.getD j dSym).ID.isSome then 1 else 0

theorem registerSymbol_cases (arena : List FNodeData) (idx : Nat)
    (st st' : OutState) (h : registerSymbol arena idx st = .ok st') :
    ∃ reg', out_RegisterNode arena (st.symbols.getD idx dSym).src st.reg = .ok reg' ∧
      st.nbSymbols ≠ UINT32_MAX ∧
      st' = { st with
        reg := reg',
        objectSymbols := st.objectSymbols ++ [idx],
        symbols := st.symbols.set idx
          { st.symbols.getD idx dSym with ID := some st.nbSymbols },
        nbSymbols := st.nbSymbols + 1 } := by
  rw [registerSymbol] at h
  simp only at h
  cases hr : out_RegisterNode arena (st.symbols.getD idx dSym).src st.reg with
  | error e => rw [hr] at h; exact absurd h (by simp)
  | ok reg' =>
    rw [hr] at h
    have h2 : (if st.nbSymbols = UINT32_MAX then
        (Except.error "Registered too many symbols; try splitting up your files" :
          Except String OutState)
      else Except.ok { st with
        reg := reg',
        objectSymbols := st.objectSymbols ++ [idx],
        symbols := st.symbols.set idx
          { st.symbols.getD idx dSym with ID := some st.nbSymbols },
        nbSymbols := st.nbSymbols + 1 }) = Except.ok st' := h
    by_cases hnb : st.nbSymbols = UINT32_MAX
    · rw [if_pos hnb] at h2
      exact absurd h2 (by simp)
    · rw [if_neg hnb] at h2
      simp only [Except.ok.injEq] at h2
      exact ⟨reg', rfl, hnb, h2.symm⟩

theorem getSymbolID_cases (arena : List FNodeData) (r : Nat) (st : OutState)
    (v : Nat) (st1 : OutState) (h : getSymbolID arena r st = .ok (v, st1)) :
    (¬((st.symbols.getD r dSym).ID = none ∧ (st.symbols.getD r dSym).isPC = false) ∧
      st1 = st) ∨
    ((st.symbols.getD r dSym).ID = none ∧ (st.symbols.getD r dSym).isPC = false ∧
      st.nbSymbols ≠ UINT32_MAX ∧
      ∃ reg', st1 = { st with
        reg := reg',
        objectSymbols := st.objectSymbols ++ [r],
        symbols := st.symbols.set r
          { st.symbols.getD r dSym with ID := some st.nbSymbols },
        nbSymbols := st.nbSymbols + 1 }) := by
  rw [getSymbolID] at h
  by_cases hc : (st.symbols.getD r dSym).ID = none ∧ (st.symbols.getD r dSym).isPC = false
  · rw [if_pos hc] at h
    cases hr : registerSymbol arena r st with
    | error e => rw [hr] at h; exact absurd h (by simp)
    | ok st2 =>
      rw [hr] at h
      simp only [Except.ok.injEq, Prod.mk.injEq] at h
      obtain ⟨reg', -, hnb, h2⟩ := registerSymbol_cases arena r st st2 hr
      exact .inr ⟨hc.1, hc.2, hnb, reg', h.2.symm.trans h2⟩
  · rw [if_neg hc] at h
    simp only [Except.ok.injEq, Prod.mk.injEq] at h
    exact .inl ⟨hc, h.2.symm⟩

theorem count_append_singleton (l : List Nat) (r j : Nat) :
    (l ++ [r]).count j = l.count j + (if j = r then 1 else 0) := by
  rw [List.count_append]
  by_cases hj : j = r
  · subst hj; simp
  · simp [List.count_singleton, hj]

theorem getSymbolID_step (arena : List FNodeData) (r : Nat) (st : OutState)
    (v : Nat) (st1 : OutState) (hr : r < st.symbols.length)
    (h : getSymbolID arena r st = .ok (v, st1)) :
    st1.symbols.length = st.symbols.length ∧
    (∀ j, (st1.symbols.getD j dSym).isExported = (st.symbols.getD j dSym).isExported ∧
          (st1.symbols.getD j dSym).isPC = (st.symbols.getD j dSym).isPC) ∧
    (∀ j, (st1.symbols.getD j dSym).ID.isSome ↔
      ((st.symbols.getD j dSym).ID.isSome ∨
        (j = r ∧ (st.symbols.getD j dSym).isPC = false))) ∧
    (SymsOK st → SymsOK st1) := by
  rcases getSymbolID_cases arena r st v st1 h with ⟨hno, rfl⟩ | ⟨hid, hpc, hnb, reg', rfl⟩
  · refine ⟨rfl, fun j => ⟨rfl, rfl⟩, ?_, fun hs => hs⟩
    intro j
    constructor
    · exact fun hj => .inl hj
    · rintro (hj | ⟨rfl, hpcj⟩)
      · exact hj
      · rw [Option.isSome_iff_ne_none]
        intro hn
        exact hno ⟨hn, hpcj⟩
  · have hset : ∀ j, ((st.symbols.set r
        { st.symbols.getD r dSym with ID := some st.nbSymbols }).getD j dSym) =
        if j = r then { st.symbols.getD r dSym with ID := some st.nbSymbols }
        else st.symbols.getD j dSym := by
      intro j
      by_cases hj : j = r
      · subst hj; rw [if_pos rfl]; exact getD_set_self' st.symbols j hr _ _
      · rw [if_neg hj]; exact getD_set_ne' st.symbols r j (fun hh => hj hh.symm) _ _
    refine ⟨by simp, ?_, ?_, ?_⟩
    · intro j
      simp only [hset]
      by_cases hj : j = r
      · subst hj; rw [if_pos rfl]; exact ⟨rfl, rfl⟩
      · rw [if_neg hj]; exact ⟨rfl, rfl⟩
    · intro j
      simp only [hset]
      by_cases hj : j = r
      · subst hj
        rw [if_pos rfl]
        exact ⟨fun _ => .inr ⟨rfl, hpc⟩, fun _ => rfl⟩
      · rw [if_neg hj]
        constructor
        · exact fun hh => .inl hh
        · rintro (hh | ⟨rfl, -⟩)
          · exact hh
          · exact absurd rfl hj
    · intro hs j
      simp only [count_append_singleton, hset, hs j]
      by_cases hj : j = r
      · subst hj
        have e1 : (st.symbols.getD j dSym).ID.isSome = false := by rw [hid]; rfl
        rw [e1]
        simp
      · rw [if_neg hj, if_neg hj, Nat.add_zero]

theorem registerExported_step (arena : List FNodeData) (idx : Nat)
    (st st' : OutState) (h : registerExportedSymbol arena idx st = .ok st') :
    st'.symbols.length = st.symbols.length ∧
    (∀ j, (st'.symbols.getD j dSym).isExported = (st.symbols.getD j dSym).isExported ∧
          (st'.symbols.getD j dSym).isPC = (st.symbols.getD j dSym).isPC) ∧
    (∀ j, (st'.symbols.getD j dSym).ID.isSome ↔
      ((st.symbols.getD j dSym).ID.isSome ∨
        (j = idx ∧ (st.symbols.getD j dSym).isExported = true))) ∧
    (SymsOK st → SymsOK st') := by
  rw [registerExportedSymbol] at h
  by_cases hc : (st.symbols.getD idx dSym).isExported = true ∧
      (st.symbols.getD idx dSym).ID = none
  · rw [if_pos hc] at h
    have hr : idx < st.symbols.length := by
      by_contra hge
      have hd : st.symbols.getD idx dSym = dSym := by
        rw [List.getD_eq_default]
        omega
      rw [hd] at hc
      simp [dSym] at hc
    obtain ⟨reg', -, hnb, rfl⟩ := registerSymbol_cases arena idx st st' h
    have hset : ∀ j, ((st.symbols.set idx
        { st.symbols.getD idx dSym with ID := some st.nbSymbols }).getD j dSym) =
        if j = idx then { st.symbols.getD idx dSym with ID := some st.nbSymbols }
        else st.symbols.getD j dSym := by
      intro j
      by_cases hj : j = idx
      · subst hj; rw [if_pos rfl]; exact getD_set_self' st.symbols j hr _ _
      · rw [if_neg hj]; exact getD_set_ne' st.symbols idx j (fun hh => hj hh.symm) _ _
    refine ⟨by simp, ?_, ?_, ?_⟩
    · intro j
      simp only [hset]
      by_cases hj : j = idx
      · subst hj; rw [if_pos rfl]; exact ⟨rfl, rfl⟩
      · rw [if_neg hj]; exact ⟨rfl, rfl⟩
    · intro j
      simp only [hset]
      by_cases hj : j = idx
      · subst hj
        rw [if_pos rfl]
        exact ⟨fun _ => .inr ⟨rfl, hc.1⟩, fun _ => rfl⟩
      · rw [if_neg hj]
        constructor
        · exact fun hh => .inl hh
        · rintro (hh | ⟨rfl, -⟩)
          · exact hh
          · exact absurd rfl hj
    · intro hs j
      simp only [count_append_singleton, hset, hs j]
      by_cases hj : j = idx
      · subst hj
        have e1 : (st.symbols.getD j dSym).ID.isSome = false := by rw [hc.2]; rfl
        rw [e1]
        simp
      · rw [if_neg hj, if_neg hj, Nat.add_zero]
  · rw [if_neg hc] at h
    simp only [Except.ok.injEq] at h
    subst h
    refine ⟨rfl, fun j => ⟨rfl, rfl⟩, ?_, fun hs => hs⟩
    intro j
    constructor
    · exact fun hj => .inl hj
    · rintro (hj | ⟨rfl, hexp⟩)
      · exact hj
      · rw [Option.isSome_iff_ne_none]
        intro hn
        exact hc ⟨hexp, hn⟩

theorem runRefs_effects (arena : List FNodeData) :
    ∀ refs st st', (∀ r ∈ refs, r < st.symbols.length) →
      runRefs arena refs st = .ok st' →
      st'.symbols.length = st.symbols.length ∧
      (∀ j, (st'.symbols.getD j dSym).isExported = (st.symbols.getD j dSym).isExported ∧
            (st'.symbols.getD j dSym).isPC = (st.symbols.getD j dSym).isPC) ∧
      (∀ j, (st'.symbols.getD j dSym).ID.isSome ↔
        ((st.symbols.getD j dSym).ID.isSome ∨
          (j ∈ refs ∧ (st.symbols.getD j dSym).isPC = false))) ∧
      (SymsOK st → SymsOK st') := by
  intro refs
  induction refs with
  | nil =>
    intro st st' _ h
    simp only [runRefs, Except.ok.injEq] at h
    subst h
    exact ⟨rfl, fun j => ⟨rfl, rfl⟩, by simp, fun hs => hs⟩
  | cons r rest ih =>
    intro st st' hlt h
    rw [runRefs] at h
    cases hg : getSymbolID arena r st with
    | error e => rw [hg] at h; exact absurd h (by simp)
    | ok pr =>
      obtain ⟨v, st1⟩ := pr
      rw [hg] at h
      obtain ⟨hlen1, hstat1, hids1, hsym1⟩ :=
        getSymbolID_step arena r st v st1 (hlt r (List.mem_cons_self r rest)) hg
      obtain ⟨hlen2, hstat2, hids2, hsym2⟩ :=
        ih st1 st' (fun x hx => hlen1 ▸ hlt x (List.mem_cons_of_mem r hx)) h
      refine ⟨hlen2.trans hlen1, ?_, ?_, fun hs => hsym2 (hsym1 hs)⟩
      · intro j
        exact ⟨(hstat2 j).1.trans (hstat1 j).1, (hstat2 j).2.trans (hstat1 j).2⟩
      · intro j
        rw [hids2 j, hids1 j, (hstat1 j).2]
        constructor
        · rintro ((hh | ⟨rfl, hp⟩) | ⟨hm, hp⟩)
          · exact .inl hh
          · exact .inr ⟨List.mem_cons_self _ _, hp⟩
          · exact .inr ⟨List.mem_cons_of_mem _ hm, hp⟩
        · rintro (hh | ⟨hm, hp⟩)
          · exact .inl (.inl hh)
          · rcases List.mem_cons.mp hm with rfl | hm'
            · exact .inl (.inr ⟨rfl, hp⟩)
            · exact .inr ⟨hm', hp⟩

theorem sweepAux_effects (arena : List FNodeData) :
    ∀ idxs st st', sweepExportedAux arena idxs st = .ok st' →
      st'.symbols.length = st.symbols.length ∧
      (∀ j, (st'.symbols.getD j dSym).isExported = (st.symbols.getD j dSym).isExported ∧
            (st'.symbols.getD j dSym).isPC = (st.symbols.getD j dSym).isPC) ∧
      (∀ j, (st'.symbols.getD j dSym).ID.isSome ↔
        ((st.symbols.getD j dSym).ID.isSome ∨
          (j ∈ idxs ∧ (st.symbols.getD j dSym).isExported = true))) ∧
      (SymsOK st → SymsOK st') := by
  intro idxs
  induction idxs with
  | nil =>
    intro st st' h
    simp only [sweepExportedAux, Except.ok.injEq] at h
    subst h
    exact ⟨rfl, fun j => ⟨rfl, rfl⟩, by simp, fun hs => hs⟩
  | cons r rest ih =>
    intro st st' h
    rw [sweepExportedAux] at h
    cases hg : registerExportedSymbol arena r st with
    | error e => rw [hg] at h; exact absurd h (by simp)
    | ok st1 =>
      rw [hg] at h
      obtain ⟨hlen1, hstat1, hids1, hsym1⟩ := registerExported_step arena r st st1 hg
      obtain ⟨hlen2, hstat2, hids2, hsym2⟩ := ih st1 st' h
      refine ⟨hlen2.trans hlen1, ?_, ?_, fun hs => hsym2 (hsym1 hs)⟩
      · intro j
        exact ⟨(hstat2 j).1.trans (hstat1 j).1, (hstat2 j).2.trans (hstat1 j).2⟩
      · intro j
        rw [hids2 j, hids1 j, (hstat1 j).1]
        constructor
        · rintro ((hh | ⟨rfl, hp⟩) | ⟨hm, hp⟩)
          · exact .inl hh
          · exact .inr ⟨List.mem_cons_self _ _, hp⟩
          · exact .inr ⟨List.mem_cons_of_mem _ hm, hp⟩
        · rintro (hh | ⟨hm, hp⟩)
          · exact .inl (.inl hh)
          · rcases List.mem_cons.mp hm with rfl | hm'
            · exact .inl (.inr ⟨rfl, hp⟩)
            · exact .inr ⟨hm', hp⟩

/-- C5: starting from a state in which no symbol has an object-file ID and
the output symbol list is empty, after a sequence of patch references
(`getSymbolID` calls, as performed by the expression rewriter) followed by
the final-output export sweep, a symbol has an ID — equivalently, occurs in
the output symbol list — if and only if it was referenced (and is not the
program-counter pseudo-symbol) or is exported; and it occurs in the output
symbol list exactly once in that case and zero times otherwise (in
particular, an exported symbol already registered by a reference is not
registered again by the sweep). -/
theorem C5_symbol_id_laziness (arena : List FNodeData) (refs : List Nat)
    (st0 st1 st2 : OutState)
    (hids0 : ∀ j, (st0.symbols.getD j dSym).ID = none)
    (hobj0 : st0.objectSymbols = [])
    (hrefs : ∀ r ∈ refs, r < st0.symbols.length)
    (h1 : runRefs arena refs st0 = .ok st1)
    (h2 : sweepExported arena st1 = .ok st2) :
    ∀ j,
      ((st2.symbols.getD j dSym).ID.isSome ↔
        ((j ∈ refs ∧ (st0.symbols.getD j dSym).isPC = false) ∨
         (j < st0.symbols.length ∧ (st0.symbols.getD j dSym).isExported = true))) ∧
      (j ∈ st2.objectSymbols ↔ (st2.symbols.getD j dSym).ID.isSome) ∧
      (st2.objectSymbols.count j =
        if ((j ∈ refs ∧ (st0.symbols.getD j dSym).isPC = false) ∨
            (j < st0.symbols.length ∧ (st0.symbols.getD j dSym).isExported = true))
        then 1 else 0) := by
  obtain ⟨hlen1, hstat1, hids1, hsym1⟩ := runRefs_effects arena refs st0 st1 hrefs h1
  obtain ⟨hlen2, hstat2, hids2, hsym2⟩ :=
    sweepAux_effects arena (List.range st1.symbols.length) st1 st2 h2
  have hSOK0 : SymsOK st0 := by
    intro j
    rw [hobj0]
    have e : (st0.symbols.getD j dSym).ID.isSome = false := by rw [hids0 j]; rfl
    rw [e]
    rfl
  have hSOK2 : SymsOK st2 := hsym2 (hsym1 hSOK0)
  intro j
  have hIDiff : (st2.symbols.getD j dSym).ID.isSome ↔
      ((j ∈ refs ∧ (st0.symbols.getD j dSym).isPC = false) ∨
       (j < st0.symbols.length ∧ (st0.symbols.getD j dSym).isExported = true)) := by
    rw [hids2 j, hids1 j, (hstat1 j).1]
    have e : (st0.symbols.getD j dSym).ID.isSome = false := by rw [hids0 j]; rfl
    rw [e]
    rw [List.mem_range, hlen1]
    constructor
    · rintro ((hh | hrf) | ⟨hm, hexp⟩)
      · exact absurd hh (by simp)
      · exact .inl hrf
      · exact .inr ⟨hm, hexp⟩
    · rintro (hrf | ⟨hm, hexp⟩)
      · exact .inl (.inr hrf)
      · exact .inr ⟨hm, hexp⟩
  refine ⟨hIDiff, ?_, ?_⟩
  · constructor
    · intro hm
      by_contra hns
      have h0 := hSOK2 j
      rw [if_neg hns] at h0
      exact (List.count_eq_zero.mp h0) hm
    · intro hsome
      have h0 := hSOK2 j
      rw [if_pos hsome] at h0
      by_contra hnm
      have h00 := List.count_eq_zero.mpr hnm
      omega
  · have h0 := hSOK2 j
    rw [h0]
    exact if_congr hIDiff rfl rfl

/-- State after referencing symbol 1 from `wOut`: symbol 1 got ID 0 (and its
provenance chain was registered); the constant, unexported symbol 0 got
nothing.  The export sweep leaves this state unchanged. -/
def wSt1 : OutState :=
  { reg := ⟨[some 1, some 0, none], [0, 1]⟩,
    symbols := [⟨[120], false, true, 287454020, false, 0, none⟩,
                ⟨[121], true, false, 0, false, 1, some 0⟩],
    objectSymbols := [1],
    nbSymbols := 1,
    sections := [],
    currentSection := none,
    assertions := [] }

/-- Witness for C5: one reference to exported symbol 1, then the sweep;
instantiated at the referenced symbol 1 and at the unreferenced, unexported
symbol 0. -/
theorem C5_symbol_id_laziness_witness :
    (((wSt1.symbols.getD 1 dSym).ID.isSome ↔
        ((1 ∈ [1] ∧ (wOut.symbols.getD 1 dSym).isPC = false) ∨
         (1 < wOut.symbols.length ∧ (wOut.symbols.getD 1 dSym).isExported = true))) ∧
      (1 ∈ wSt1.objectSymbols ↔ (wSt1.symbols.getD 1 dSym).ID.isSome) ∧
      (wSt1.objectSymbols.count 1 =
        if ((1 ∈ [1] ∧ (wOut.symbols.getD 1 dSym).isPC = false) ∨
            (1 < wOut.symbols.length ∧ (wOut.symbols.getD 1 dSym).isExported = true))
        then 1 else 0)) ∧
    (((wSt1.symbols.getD 0 dSym).ID.isSome ↔
        ((0 ∈ [1] ∧ (wOut.symbols.getD 0 dSym).isPC = false) ∨
         (0 < wOut.symbols.length ∧ (wOut.symbols.getD 0 dSym).isExported = true))) ∧
      (0 ∈ wSt1.objectSymbols ↔ (wSt1.symbols.getD 0 dSym).ID.isSome) ∧
      (wSt1.objectSymbols.count 0 =
        if ((0 ∈ [1] ∧ (wOut.symbols.getD 0 dSym).isPC = false) ∨
            (0 < wOut.symbols.length ∧ (wOut.symbols.getD 0 dSym).isExported = true))
        then 1 else 0)) :=
  ⟨C5_symbol_id_laziness wArena [1] wOut wSt1 wSt1
    (by
      intro j
      rcases j with _ | _ | n
      · rfl
      · rfl
      · rw [List.getD_eq_default]
        · rfl
        · simp [wOut, wSyms])
    rfl (by decide) rfl rfl 1,
   C5_symbol_id_laziness wArena [1] wOut wSt1 wSt1
    (by
      intro j
      rcases j with _ | _ | n
      · rfl
      · rfl
      · rw [List.getD_eq_default]
        · rfl
        · simp [wOut, wSyms])
    rfl (by decide) rfl rfl 0⟩

/-!
## Patch creation (`allocpatch`, `out_CreatePatch`), assertions, and section
serialization

`struct Expression` (from `asm/rpn.h`, modelled from the spec): either a
statically known 32-bit scalar (`isKnown`, with `nVal` an `int32_t`) or a
finalized RPN byte sequence `tRPN` (its `nRPNLength` is the length of the
list) with the patch size `nRPNPatchSize` precomputed by the expression
builder.  The "current compile location" collaborators
(`fstk_GetFileStack`, `lexer_GetLineNo`, `sect_GetSymbolSection`,
`sect_GetSymbolOffset`) are a context record.  `malloc` failures inside
`allocpatch` are `fatalerror` (process death) in the C and are not modelled;
the two fallible allocations of `out_CreateAssert` (the assertion record and
the `strdup` of the message), which *are* observable through its return
value, are modelled by two Booleans. -/

structure Expression where
  isKnown : Bool
  nVal : Int
  tRPN : List Nat
  nRPNPatchSize : Nat
deriving Repr, DecidableEq

structure Ctx where
  fileStackNode : Nat
  lineNo : Nat
  pcSection : Option Nat
  pcOffset : Nat
deriving Repr, DecidableEq

/-- Placeholder section for out-of-range reads. -/
def dSect : Sect := ⟨[], 0, 0, .normal, 0, 0, 0, 0, [], []⟩

/-- `allocpatch`: build a patch for the expression, registering the current
provenance node.  A known expression is encoded directly as the 5-byte
`RPN_CONST` + little-endian value; otherwise the RPN bytecode is rewritten by
`writerpn`, and the C `assert(patch->nRPNSize == rpnSize)` (which compares
against `expr->nRPNPatchSize`) is modelled as a fatal check. -/
def allocpatch (arena : List FNodeData) (ctx : Ctx) (type_ : Nat)
    (expr : Expression) (ofs : Nat) (st : OutState) :
    Except String (Patch × OutState) :=
  let rpnSize := if expr.isKnown then 5 else expr.nRPNPatchSize
  match out_RegisterNode arena ctx.fileStackNode st.reg with
  | .error e => .error e
  | .ok reg' =>
    let st1 := { st with reg := reg' }
    if expr.isKnown then
      .ok ({ src := ctx.fileStackNode, lineNo := ctx.lineNo, nOffset := ofs,
             pcSection := ctx.pcSection, pcOffset := ctx.pcOffset,
             type := wbyte type_, nRPNSize := rpnSize,
             pRPN := RPN_CONST :: fputlong (toU32 expr.nVal) }, st1)
    else
      match writerpnTop arena expr.tRPN st1 with
      | .error e => .error e
      | .ok (out, st2) =>
        if out.length = rpnSize then
          .ok ({ src := ctx.fileStackNode, lineNo := ctx.lineNo, nOffset := ofs,
                 pcSection := ctx.pcSection, pcOffset := ctx.pcOffset,
                 type := wbyte type_, nRPNSize := out.length, pRPN := out }, st2)
        else .error "assertion failed: patch nRPNSize == rpnSize"

/-- `out_CreatePatch`: allocate the patch and prepend it to the current
section's patch list.  (A NULL `pCurrentSection` would be undefined behavior
in the C; it is modelled as an error.) -/
def out_CreatePatch (arena : List FNodeData) (ctx : Ctx) (type_ : Nat)
    (expr : Expression) (ofs : Nat) (st : OutState) : Except String OutState :=
  match allocpatch arena ctx type_ expr ofs st with
  | .error e => .error e
  | .ok (patch, st1) =>
    match st1.currentSection with
    | none => .error "no current section"
    | some ci =>
      let sect := st1.sections.getD ci dSect
      let sect' := { sect with patches := patch :: sect.patches }
      .ok { st1 with sections := st1.sections.set ci sect' }

/-- `out_CreateAssert`: `assertOk` models the success of
`malloc(sizeof *assertion)` and `msgOk` the success of `strdup(message)`;
both failures return `false` to the caller (the only non-fatal failures of
this core), leaving the assertion list untouched.  On success the new
assertion is prepended to the list and `true` is returned. -/
def out_CreateAssert (arena : List FNodeData) (ctx : Ctx)
    (assertOk msgOk : Bool) (type_ : Nat) (expr : Expression)
    (message : List Nat) (ofs : Nat) (st : OutState) :
    Except String (Bool × OutState) :=
  if assertOk = false then .ok (false, st)
  else
    match allocpatch arena ctx type_ expr ofs st with
    | .error e => .error e
    | .ok (patch, st1) =>
      if msgOk = false then .ok (false, st1)
      else .ok (true, { st1 with assertions := ⟨patch, message⟩ :: st1.assertions })

/-- `countpatches`. -/
def countpatches (sect : Sect) : Nat := sect.patches.length

/-- The linear scan of `getsectid`, comparing by section identity (sections
are identified by their index in the module section list). -/
def getsectidAux : List Sect → Nat → Nat → Except String Nat
  | [], _, _ => .error "Unknown section"
  | _ :: rest, target, id =>
    if id = target then .ok id else getsectidAux rest target (id + 1)

/-- `getsectid`: fatal when the section is not on the list. -/
def getsectid (sections : List Sect) (target : Nat) : Except String Nat :=
  getsectidAux sections target 0

/-- `getSectIDIfAny`: `-1` for a NULL section reference. -/
def getSectIDIfAny (sections : List Sect) (osect : Option Nat) :
    Except String Nat :=
  match osect with
  | some s => getsectid sections s
  | none => .ok UINT32_MAX

/-- `writepatch`: provenance node ID, line, offset, PC section ID and offset,
type byte, RPN size, then the RPN bytes.  The C asserts that the patch's
provenance node is registered. -/
def writepatch (sections : List Sect) (reg : RegState) (p : Patch) :
    Except String (List Nat) :=
  match reg.idOf p.src with
  | none => .error "assert failed: patch src has no ID"
  | some srcId =>
    match getSectIDIfAny sections p.pcSection with
    | .error e => .error e
    | .ok pcId =>
      .ok (fputlong srcId ++ fputlong p.lineNo ++ fputlong p.nOffset ++
        fputlong pcId ++ fputlong p.pcOffset ++ [wbyte p.type] ++
        fputlong p.nRPNSize ++ p.pRPN)

/-- The patch loop of `writesection`: each patch of the list, head first. -/
def writepatchesAux (sections : List Sect) (reg : RegState) :
    List Patch → Except String (List Nat)
  | [] => .ok []
  | p :: rest =>
    match writepatch sections reg p with
    | .error e => .error e
    | .ok bs =>
      match writepatchesAux sections reg rest with
      | .error e => .error e
      | .ok bss => .ok (bs ++ bss)

/-- `writesection`: name, size, type byte (with the union/fragment bits),
org, bank, alignment, alignment offset; and for data-carrying kinds
(`sect_HasData`, a property of the section type supplied by the section
component) the raw data, the patch count, and every patch in list order. -/
def writesection (hasData : Nat → Bool) (sections : List Sect)
    (reg : RegState) (sect : Sect) : Except String (List Nat) :=
  let header := fputstring sect.name ++ fputlong sect.size ++
    [wbyte (Nat.lor sect.type (Nat.lor
      (if sect.modifier = SectModifier.union then 128 else 0)
      (if sect.modifier = SectModifier.fragment then 64 else 0)))] ++
    fputlong sect.org ++ fputlong sect.bank ++ [wbyte sect.align] ++
    fputlong sect.alignOfs
  if hasData sect.type then
    match writepatchesAux sections reg sect.patches with
    | .error e => .error e
    | .ok pbytes =>
      .ok (header ++ sect.data.take sect.size ++
        fputlong (countpatches sect) ++ pbytes)
  else .ok header

/-- A sequence of `out_CreatePatch` calls. -/
def runCreates (arena : List FNodeData) (ctx : Ctx) :
    List (Nat × Expression × Nat) → OutState → Except String OutState
  | [], st => .ok st
  | (ty, expr, ofs) :: rest, st =>
    match out_CreatePatch arena ctx ty expr ofs st with
    | .error e => .error e
    | .ok st' => runCreates arena ctx rest st'

theorem getSymbolID_skel (arena : List FNodeData) (r : Nat) (st : OutState)
    (v : Nat) (st1 : OutState) (h : getSymbolID arena r st = .ok (v, st1)) :
    st1.sections = st.sections ∧ st1.currentSection = st.currentSection ∧
    st1.assertions = st.assertions := by
  rcases getSymbolID_cases arena r st v st1 h with ⟨-, rfl⟩ | ⟨-, -, -, reg', rfl⟩
  · exact ⟨rfl, rfl, rfl⟩
  · exact ⟨rfl, rfl, rfl⟩

theorem writerpn_skel (arena : List FNodeData) :
    ∀ fuel l st out st', writerpn arena fuel l st = .ok (out, st') →
      st'.sections = st.sections ∧ st'.currentSection = st.currentSection ∧
      st'.assertions = st.assertions := by
  intro fuel
  induction fuel with
  | zero => intro l st out st' h; simp [writerpn] at h
  | succ n ih =>
    intro l st out st' h
    cases l with
    | nil =>
      rw [writerpn.eq_def] at h
      simp only [Except.ok.injEq, Prod.mk.injEq] at h
      obtain ⟨-, rfl⟩ := h
      exact ⟨rfl, rfl, rfl⟩
    | cons b rest =>
      rw [writerpn.eq_def] at h
      simp only [] at h
      by_cases hc1 : b = RPN_CONST
      · rw [if_pos hc1] at h
        rcases rest with _ | ⟨b1, _ | ⟨b2, _ | ⟨b3, _ | ⟨b4, rest'⟩⟩⟩⟩
        · simp at h
        · simp at h
        · simp at h
        · simp at h
        · simp only [] at h
          cases hw : writerpn arena n rest' st with
          | error e => rw [hw] at h; simp at h
          | ok pr =>
            obtain ⟨o2, st2⟩ := pr
            rw [hw] at h
            simp only [Except.ok.injEq, Prod.mk.injEq] at h
            obtain ⟨-, rfl⟩ := h
            exact ih rest' st o2 _ hw
      · rw [if_neg hc1] at h
        by_cases hc2 : b = RPN_SYM
        · rw [if_pos hc2] at h
          cases hs : scanName rest with
          | none => rw [hs] at h; simp at h
          | some pr =>
            obtain ⟨nm, rest'⟩ := pr
            rw [hs] at h
            simp only [] at h
            cases hf : findSymbol st.symbols nm with
            | none => rw [hf] at h; simp at h
            | some si =>
              rw [hf] at h
              simp only [] at h
              by_cases hk : (st.symbols.getD si dSym).isConstant = true
              · rw [if_pos hk] at h
                cases hw : writerpn arena n rest' st with
                | error e => rw [hw] at h; simp at h
                | ok pr2 =>
                  obtain ⟨o2, st2⟩ := pr2
                  rw [hw] at h
                  simp only [Except.ok.injEq, Prod.mk.injEq] at h
                  obtain ⟨-, rfl⟩ := h
                  exact ih rest' st o2 _ hw
              · rw [if_neg hk] at h
                cases hg : getSymbolID arena si st with
                | error e => rw [hg] at h; simp at h
                | ok pr2 =>
                  obtain ⟨v1, st1⟩ := pr2
                  rw [hg] at h
                  simp only [] at h
                  cases hw : writerpn arena n rest' st1 with
                  | error e => rw [hw] at h; simp at h
                  | ok pr3 =>
                    obtain ⟨o2, st2⟩ := pr3
                    rw [hw] at h
                    simp only [Except.ok.injEq, Prod.mk.injEq] at h
                    obtain ⟨-, rfl⟩ := h
                    obtain ⟨e1, e2, e3⟩ := getSymbolID_skel arena si st v1 st1 hg
                    obtain ⟨f1, f2, f3⟩ := ih rest' st1 o2 _ hw
                    exact ⟨f1.trans e1, f2.trans e2, f3.trans e3⟩
        · rw [if_neg hc2] at h
          by_cases hc3 : b = RPN_BANK_SYM
          · rw [if_pos hc3] at h
            cases hs : scanName rest with
            | none => rw [hs] at h; simp at h
            | some pr =>
              obtain ⟨nm, rest'⟩ := pr
              rw [hs] at h
              simp only [] at h
              cases hf : findSymbol st.symbols nm with
              | none => rw [hf] at h; simp at h
              | some si =>
                rw [hf] at h
                simp only [] at h
                cases hg : getSymbolID arena si st with
                | error e => rw [hg] at h; simp at h
                | ok pr2 =>
                  obtain ⟨v1, st1⟩ := pr2
                  rw [hg] at h
                  simp only [] at h
                  cases hw : writerpn arena n rest' st1 with
                  | error e => rw [hw] at h; simp at h
                  | ok pr3 =>
                    obtain ⟨o2, st2⟩ := pr3
                    rw [hw] at h
                    simp only [Except.ok.injEq, Prod.mk.injEq] at h
                    obtain ⟨-, rfl⟩ := h
                    obtain ⟨e1, e2, e3⟩ := getSymbolID_skel arena si st v1 st1 hg
                    obtain ⟨f1, f2, f3⟩ := ih rest' st1 o2 _ hw
                    exact ⟨f1.trans e1, f2.trans e2, f3.trans e3⟩
          · rw [if_neg hc3] at h
            by_cases hc4 : b = RPN_BANK_SECT
            · rw [if_pos hc4] at h
              cases hs : scanName rest with
              | none => rw [hs] at h; simp at h
              | some pr =>
                obtain ⟨nm, rest'⟩ := pr
                rw [hs] at h
                simp only [] at h
                cases hw : writerpn arena n rest' st with
                | error e => rw [hw] at h; simp at h
                | ok pr2 =>
                  obtain ⟨o2, st2⟩ := pr2
                  rw [hw] at h
                  simp only [Except.ok.injEq, Prod.mk.injEq] at h
                  obtain ⟨-, rfl⟩ := h
                  exact ih rest' st o2 _ hw
            · rw [if_neg hc4] at h
              cases hw : writerpn arena n rest st with
              | error e => rw [hw] at h; simp at h
              | ok pr2 =>
                obtain ⟨o2, st2⟩ := pr2
                rw [hw] at h
                simp only [Except.ok.injEq, Prod.mk.injEq] at h
                obtain ⟨-, rfl⟩ := h
                exact ih rest st o2 _ hw

theorem allocpatch_skel (arena : List FNodeData) (ctx : Ctx) (type_ : Nat)
    (expr : Expression) (ofs : Nat) (st : OutState) (p : Patch)
    (st1 : OutState) (h : allocpatch arena ctx type_ expr ofs st = .ok (p, st1)) :
    st1.sections = st.sections ∧ st1.currentSection = st.currentSection ∧
    st1.assertions = st.assertions := by
  rw [allocpatch] at h
  cases hr : out_RegisterNode arena ctx.fileStackNode st.reg with
  | error e => rw [hr] at h; simp at h
  | ok reg' =>
    rw [hr] at h
    simp only [] at h
    by_cases hk : expr.isKnown = true
    · rw [if_pos hk] at h
      simp only [Except.ok.injEq, Prod.mk.injEq] at h
      obtain ⟨-, rfl⟩ := h
      exact ⟨rfl, rfl, rfl⟩
    · rw [if_neg hk] at h
      cases hw : writerpnTop arena expr.tRPN { st with reg := reg' } with
      | error e => rw [hw] at h; simp at h
      | ok pr =>
        obtain ⟨o2, st2⟩ := pr
        rw [hw] at h
        simp only [] at h
        by_cases hl : o2.length = (if expr.isKnown = true then 5 else expr.nRPNPatchSize)
        · rw [if_pos hl] at h
          simp only [Except.ok.injEq, Prod.mk.injEq] at h
          obtain ⟨-, rfl⟩ := h
          have hw2 : writerpn arena (expr.tRPN.length + 1) expr.tRPN
              { st with reg := reg' } = .ok (o2, st2) := hw
          exact writerpn_skel arena (expr.tRPN.length + 1) expr.tRPN
            { st with reg := reg' } o2 st2 hw2
        · rw [if_neg hl] at h
          simp at h

/-- C1: for an expression whose value is statically known, `allocpatch`
produces a patch whose RPN payload is exactly the 5 bytes
`RPN_CONST` followed by the expression's 32-bit value in little-endian byte
order, and records RPN size 5.  (The third conjunct spells out the
little-endian byte order of the payload.) -/
theorem C1_known_patch (arena : List FNodeData) (ctx : Ctx) (type_ : Nat)
    (expr : Expression) (ofs : Nat) (st : OutState) (reg' : RegState)
    (hk : expr.isKnown = true)
    (hreg : out_RegisterNode arena ctx.fileStackNode st.reg = .ok reg') :
    allocpatch arena ctx type_ expr ofs st =
      .ok ({ src := ctx.fileStackNode, lineNo := ctx.lineNo, nOffset := ofs,
             pcSection := ctx.pcSection, pcOffset := ctx.pcOffset,
             type := wbyte type_, nRPNSize := 5,
             pRPN := RPN_CONST :: fputlong (toU32 expr.nVal) },
           { st with reg := reg' }) ∧
    (RPN_CONST :: fputlong (toU32 expr.nVal)).length = 5 ∧
    fputlong (toU32 expr.nVal) =
      [toU32 expr.nVal % 256, toU32 expr.nVal / 2 ^ 8 % 256,
       toU32 expr.nVal / 2 ^ 16 % 256, toU32 expr.nVal / 2 ^ 24 % 256] := by
  refine ⟨?_, rfl, rfl⟩
  rw [allocpatch, hreg]
  simp only [] 
  simp [hk]

/-- Witness for C1 at a concrete known expression (value 0x11223344). -/
theorem C1_known_patch_witness :
    allocpatch wArena ⟨0, 7, none, 3⟩ 2 ⟨true, 287454020, [], 0⟩ 9 wOut =
      .ok ({ src := 0, lineNo := 7, nOffset := 9,
             pcSection := none, pcOffset := 3,
             type := wbyte 2, nRPNSize := 5,
             pRPN := RPN_CONST :: fputlong (toU32 287454020) },
           { wOut with reg := ⟨[some 0, none, none], [0]⟩ }) ∧
    (RPN_CONST :: fputlong (toU32 287454020)).length = 5 ∧
    fputlong (toU32 287454020) =
      [toU32 287454020 % 256, toU32 287454020 / 2 ^ 8 % 256,
       toU32 287454020 / 2 ^ 16 % 256, toU32 287454020 / 2 ^ 24 % 256] :=
  C1_known_patch wArena ⟨0, 7, none, 3⟩ 2 ⟨true, 287454020, [], 0⟩ 9 wOut
    ⟨[some 0, none, none], [0]⟩ rfl rfl

/-- C8: `out_CreateAssert` is the one operation of this core that reports
failure by returning `false` instead of terminating: if the allocation of the
assertion record fails it returns `false` with the state untouched; if the
copy of the message fails it returns `false` and the assertion list is
unchanged (every other failure in the embedding is an `Except.error`, i.e. a
fatal `fatalerror`); on success it returns `true` and the new assertion is
prepended to the assertion list. -/
theorem C8_assert_failure_signalling (arena : List FNodeData) (ctx : Ctx)
    (ty : Nat) (expr : Expression) (msg : List Nat) (ofs : Nat) (st : OutState) :
    (∀ msgOk, out_CreateAssert arena ctx false msgOk ty expr msg ofs st =
      .ok (false, st)) ∧
    (∀ patch st1, allocpatch arena ctx ty expr ofs st = .ok (patch, st1) →
      out_CreateAssert arena ctx true false ty expr msg ofs st = .ok (false, st1) ∧
      st1.assertions = st.assertions) ∧
    (∀ patch st1, allocpatch arena ctx ty expr ofs st = .ok (patch, st1) →
      out_CreateAssert arena ctx true true ty expr msg ofs st =
        .ok (true, { st1 with assertions := ⟨patch, msg⟩ :: st1.assertions }) ∧
      st1.assertions = st.assertions) := by
  refine ⟨?_, ?_, ?_⟩
  · intro msgOk
    rw [out_CreateAssert]
    rw [if_pos rfl]
  · intro patch st1 hall
    refine ⟨?_, (allocpatch_skel arena ctx ty expr ofs st patch st1 hall).2.2⟩
    rw [out_CreateAssert]
    rw [if_neg (by decide : ¬(true = false))]
    rw [hall]
    simp
  · intro patch st1 hall
    refine ⟨?_, (allocpatch_skel arena ctx ty expr ofs st patch st1 hall).2.2⟩
    rw [out_CreateAssert]
    rw [if_neg (by decide : ¬(true = false))]
    rw [hall]
    simp

/-- State of `wOut` after the provenance registration done by `allocpatch`
for node 0. -/
def wOutReg : OutState := { wOut with reg := ⟨[some 0, none, none], [0]⟩ }

/-- The patch built by `allocpatch` for the witness assertion. -/
def wPatch1 : Patch :=
  { src := 0, lineNo := 7, nOffset := 4, pcSection := none, pcOffset := 3,
    type := wbyte 0, nRPNSize := 5, pRPN := RPN_CONST :: fputlong (toU32 1) }

/-- Witness for C8: the three outcomes at a concrete assertion. -/
theorem C8_assert_failure_signalling_witness :
    (out_CreateAssert wArena ⟨0, 7, none, 3⟩ false true 0
        ⟨true, 1, [], 0⟩ [109] 4 wOut = .ok (false, wOut)) ∧
    (out_CreateAssert wArena ⟨0, 7, none, 3⟩ true false 0
        ⟨true, 1, [], 0⟩ [109] 4 wOut = .ok (false, wOutReg) ∧
      wOutReg.assertions = wOut.assertions) ∧
    (out_CreateAssert wArena ⟨0, 7, none, 3⟩ true true 0
        ⟨true, 1, [], 0⟩ [109] 4 wOut =
      .ok (true, { wOutReg with
        assertions := ⟨wPatch1, [109]⟩ :: wOutReg.assertions }) ∧
      wOutReg.assertions = wOut.assertions) :=
  have hall : allocpatch wArena ⟨0, 7, none, 3⟩ 0 ⟨true, 1, [], 0⟩ 4 wOut =
      .ok (wPatch1, wOutReg) := rfl
  ⟨(C8_assert_failure_signalling wArena ⟨0, 7, none, 3⟩ 0 ⟨true, 1, [], 0⟩
      [109] 4 wOut).1 true,
   (C8_assert_failure_signalling wArena ⟨0, 7, none, 3⟩ 0 ⟨true, 1, [], 0⟩
      [109] 4 wOut).2.1 _ _ hall,
   (C8_assert_failure_signalling wArena ⟨0, 7, none, 3⟩ 0 ⟨true, 1, [], 0⟩
      [109] 4 wOut).2.2 _ _ hall⟩

/-- C10: `out_CreatePatch` prepends the newly allocated patch to the current
section's patch list; `writesection` serializes a data-carrying section's
patches by walking that list from its head (the per-patch records appear in
list order); hence after any sequence of patch creations the patch records
of the section are serialized in reverse creation order (most recently
created first): the final list is the reverse of the creation order appended
to the pre-existing patches. -/
theorem C10_patch_serialization_order (arena : List FNodeData) (ctx : Ctx)
    (hasData : Nat → Bool) :
    (∀ ty expr ofs st patch st1 ci,
      allocpatch arena ctx ty expr ofs st = .ok (patch, st1) →
      st.currentSection = some ci →
      out_CreatePatch arena ctx ty expr ofs st =
        .ok { st1 with sections := st1.sections.set ci ({ st1.sections.getD ci dSect with patches := patch :: (st1.sections.getD ci dSect).patches }) }) ∧
    (∀ sections reg ps bs, writepatchesAux sections reg ps = .ok bs ↔
      ∃ bss, List.Forall₂ (fun p b => writepatch sections reg p = .ok b) ps bss ∧
        bs = bss.flatten) ∧
    (∀ sections reg sect pbytes, hasData sect.type = true →
      writepatchesAux sections reg sect.patches = .ok pbytes →
      writesection hasData sections reg sect =
        .ok ((fputstring sect.name ++ fputlong sect.size ++
          [wbyte (Nat.lor sect.type (Nat.lor
            (if sect.modifier = SectModifier.union then 128 else 0)
            (if sect.modifier = SectModifier.fragment then 64 else 0)))] ++
          fputlong sect.org ++ fputlong sect.bank ++ [wbyte sect.align] ++
          fputlong sect.alignOfs) ++ sect.data.take sect.size ++
          fputlong sect.patches.length ++ pbytes)) ∧
    (∀ inputs st st' ci, st.currentSection = some ci →
      ci < st.sections.length →
      runCreates arena ctx inputs st = .ok st' →
      ∃ ps : List Patch, ps.length = inputs.length ∧
        (st'.sections.getD ci dSect).patches =
          ps.reverse ++ (st.sections.getD ci dSect).patches) := by
  have stepA : ∀ ty expr ofs st patch st1 ci,
      allocpatch arena ctx ty expr ofs st = .ok (patch, st1) →
      st.currentSection = some ci →
      out_CreatePatch arena ctx ty expr ofs st =
        .ok { st1 with sections := st1.sections.set ci ({ st1.sections.getD ci dSect with patches := patch :: (st1.sections.getD ci dSect).patches }) } := by
    intro ty expr ofs st patch st1 ci hall hcur
    rw [out_CreatePatch, hall]
    simp only []
    have hcur1 : st1.currentSection = some ci :=
      ((allocpatch_skel arena ctx ty expr ofs st patch st1 hall).2.1).trans hcur
    rw [hcur1]
  have partB : ∀ sections reg ps bs, writepatchesAux sections reg ps = .ok bs ↔
      ∃ bss, List.Forall₂ (fun p b => writepatch sections reg p = .ok b) ps bss ∧
        bs = bss.flatten := by
    intro sections reg ps
    induction ps with
    | nil =>
      intro bs
      rw [writepatchesAux]
      constructor
      · intro h
        simp only [Except.ok.injEq] at h
        exact ⟨[], List.Forall₂.nil, h.symm⟩
      · rintro ⟨bss, hf, rfl⟩
        cases hf
        rfl
    | cons p rest ih =>
      intro bs
      rw [writepatchesAux]
      constructor
      · intro h
        cases hw : writepatch sections reg p with
        | error e => rw [hw] at h; exact absurd h (by simp)
        | ok b0 =>
          rw [hw] at h
          simp only [] at h
          cases ha : writepatchesAux sections reg rest with
          | error e => rw [ha] at h; exact absurd h (by simp)
          | ok bs0 =>
            rw [ha] at h
            simp only [Except.ok.injEq] at h
            obtain ⟨bss, hf, rfl⟩ := (ih bs0).mp ha
            exact ⟨b0 :: bss, List.Forall₂.cons hw hf, by rw [← h]; rfl⟩
      · rintro ⟨bss, hf, rfl⟩
        cases hf with
        | cons hpb hrest =>
          rename_i b0 bss'
          rw [hpb]
          simp only []
          rw [(ih bss'.flatten).mpr ⟨bss', hrest, rfl⟩]
          rfl
  refine ⟨stepA, partB, ?_, ?_⟩
  · intro sections reg sect pbytes hd hps
    rw [writesection]
    simp only [hd, if_true]
    rw [hps]
    rfl
  · intro inputs
    induction inputs with
    | nil =>
      intro st st' ci hcur hci hrun
      simp only [runCreates, Except.ok.injEq] at hrun
      subst hrun
      exact ⟨[], rfl, rfl⟩
    | cons trip rest ih =>
      obtain ⟨ty, expr, ofs⟩ := trip
      intro st st' ci hcur hci hrun
      rw [runCreates] at hrun
      cases hc : out_CreatePatch arena ctx ty expr ofs st with
      | error e => rw [hc] at hrun; exact absurd hrun (by simp)
      | ok stn =>
        rw [hc] at hrun
        cases hall : allocpatch arena ctx ty expr ofs st with
        | error e => rw [out_CreatePatch, hall] at hc; exact absurd hc (by simp)
        | ok pr =>
          obtain ⟨p, st1⟩ := pr
          have hstep := stepA ty expr ofs st p st1 ci hall hcur
          rw [hstep] at hc
          simp only [Except.ok.injEq] at hc
          obtain ⟨hs1, hs2, hs3⟩ := allocpatch_skel arena ctx ty expr ofs st p st1 hall
          have hci1 : ci < st1.sections.length := by rw [hs1]; exact hci
          have hgetset : ((st1.sections.set ci
              ({ st1.sections.getD ci dSect with
                patches := p :: (st1.sections.getD ci dSect).patches })).getD ci dSect) =
              ({ st1.sections.getD ci dSect with
                patches := p :: (st1.sections.getD ci dSect).patches }) :=
            getD_set_self' st1.sections ci hci1 _ _
          have hcurn : stn.currentSection = some ci := by
            rw [← hc]
            exact hs2.trans hcur
          have hcin : ci < stn.sections.length := by
            rw [← hc]
            simpa using hci1
          obtain ⟨ps', hlen', hpat'⟩ := ih stn st' ci hcurn hcin hrun
          refine ⟨p :: ps', by simpa using hlen', ?_⟩
          rw [hpat']
          rw [show (stn.sections.getD ci dSect) =
            ({ st1.sections.getD ci dSect with
              patches := p :: (st1.sections.getD ci dSect).patches }) from by
            rw [← hc]; exact hgetset]
          rw [show st1.sections = st.sections from hs1]
          simp

/-- A one-byte data section for the patch-order witness. -/
def wSect : Sect :=
  { name := [115], size := 1, type := 0, modifier := .normal, org := 0,
    bank := 0, align := 0, alignOfs := 0, data := [0], patches := [] }

/-- Output state with one (current) section. -/
def wOutSec : OutState :=
  { wOut with sections := [wSect], currentSection := some 0 }

/-- `wOutSec` after `allocpatch` registered provenance node 0. -/
def wOutSec1 : OutState := { wOutSec with reg := ⟨[some 0, none, none], [0]⟩ }

/-- The first patch created by the C10 witness run (constant 42 at offset 0). -/
def wPatch42 : Patch :=
  { src := 0, lineNo := 7, nOffset := 0, pcSection := none, pcOffset := 3,
    type := wbyte 0, nRPNSize := 5, pRPN := RPN_CONST :: fputlong (toU32 42) }

/-- Witness for C10: one `out_CreatePatch` prepends, and a two-patch run
leaves the section's list in reverse creation order. -/
theorem C10_patch_serialization_order_witness :
    (out_CreatePatch wArena ⟨0, 7, none, 3⟩ 0 ⟨true, 42, [], 0⟩ 0 wOutSec =
      .ok { wOutSec1 with sections := wOutSec1.sections.set 0 ({ wOutSec1.sections.getD 0 dSect with patches := wPatch42 :: (wOutSec1.sections.getD 0 dSect).patches }) }) ∧
    (∃ ps : List Patch, ps.length = 2 ∧
      (OutState.sections
          (match runCreates wArena ⟨0, 7, none, 3⟩
            [(0, ⟨true, 42, [], 0⟩, 0), (0, ⟨true, 7, [], 0⟩, 1)] wOutSec with
           | .ok s => s
           | .error _ => wOutSec)
        |>.getD 0 dSect).patches =
        ps.reverse ++ (wOutSec.sections.getD 0 dSect).patches) := by
  constructor
  · exact (C10_patch_serialization_order wArena ⟨0, 7, none, 3⟩ (fun _ => true)).1
      0 ⟨true, 42, [], 0⟩ 0 wOutSec wPatch42 wOutSec1 0 rfl rfl
  · obtain ⟨ps, hlen, hpat⟩ :=
      (C10_patch_serialization_order wArena ⟨0, 7, none, 3⟩ (fun _ => true)).2.2.2
      [(0, ⟨true, 42, [], 0⟩, 0), (0, ⟨true, 7, [], 0⟩, 1)] wOutSec _ 0 rfl
      (by decide) rfl
    exact ⟨ps, hlen, hpat⟩
